import Mathlib

/-!
Verification development for the BadgerDB-style buffer manager in
`src/buffer.cpp` (class `BufMgr`).  The data model and every public
operation are embedded shallowly: the frame-descriptor array and the
buffer pool become lists indexed by frame id, the `BufHashTbl` page
identity index becomes an association list, exceptions become an
`Except` result, and all calls into the `File` collaborator are
recorded in an event trace so that write-back / allocation / deletion
behaviour can be stated.
-/

abbrev FileId := Nat
abbrev PageId := Nat
abbrev FrameId := Nat

/-- In-memory page contents; `page_number` mirrors `Page::page_number()`. -/
structure Page where
  page_number : PageId
  content : Nat
deriving Repr, DecidableEq

instance : Inhabited Page := ⟨⟨0, 0⟩⟩

/-- One entry of `bufDescTable`: the per-frame metadata of class `BufDesc`.
The C++ `File *file` pointer is `none` when the frame holds no file. -/
structure BufDesc where
  file : Option FileId
  pageNo : PageId
  frameNo : FrameId
  pinCnt : Nat
  dirty : Bool
  valid : Bool
  refbit : Bool
deriving Repr, DecidableEq

instance : Inhabited BufDesc := ⟨⟨none, 0, 0, 0, false, false, false⟩⟩

/-- Modelled from the spec: `buffer.h` (class `BufDesc`) is not under `src/`;
the spec says all fields reset to an empty state (`valid=false`) whenever the
frame is reclaimed via `Clear`. -/
def BufDesc.Clear (d : BufDesc) : BufDesc :=
  { d with file := none, pageNo := 0, pinCnt := 0,
           dirty := false, valid := false, refbit := false }

/-- Modelled from the spec: `buffer.h` (class `BufDesc`) is not under `src/`;
the spec says `Set(file, pageNo)` transitions an allocated frame to
`valid=true, pinCnt=1, refbit=true, dirty=false`. -/
def BufDesc.Set (d : BufDesc) (f : FileId) (p : PageId) : BufDesc :=
  { d with file := some f, pageNo := p, pinCnt := 1,
           dirty := false, valid := true, refbit := true }

/-- The page identity index (`BufHashTbl`), as an association list from
(file, pageNo) to frame id. -/
abbrev HashTbl := List (FileId × PageId × FrameId)

/-- `BufHashTbl::lookup`; `none` models the `HashNotFoundException` path. -/
def htLookup : HashTbl → FileId → PageId → Option FrameId
  | [], _, _ => none
  | e :: rest, f, p =>
      if e.1 = f ∧ e.2.1 = p then some e.2.2 else htLookup rest f p

/-- `BufHashTbl::remove`; `none` models the `HashNotFoundException` path. -/
def htRemove : HashTbl → FileId → PageId → Option HashTbl
  | [], _, _ => none
  | e :: rest, f, p =>
      if e.1 = f ∧ e.2.1 = p then some rest
      else
        match htRemove rest f p with
        | some rest2 => some (e :: rest2)
        | none => none

/-- `BufHashTbl::insert` (callers only insert keys that are absent). -/
def htInsert (ht : HashTbl) (f : FileId) (p : PageId) (fr : FrameId) : HashTbl :=
  (f, p, fr) :: ht

/-- Calls made into the `File` collaborator, recorded in order. -/
inductive FileOp where
  | readPage : FileId → PageId → FileOp
  | writePage : Option FileId → Page → FileOp
  | allocatePage : FileId → FileOp
  | deletePage : FileId → PageId → FileOp
deriving Repr, DecidableEq

/-- Exceptions that can cross the `BufMgr` boundary. -/
inductive BufError where
  | BufferExceeded : BufError
  | PageNotPinned : Option FileId → PageId → FrameId → BufError
  | PagePinned : FileId → PageId → FrameId → BufError
  | BadBuffer : FrameId → Bool → Bool → Bool → BufError
  | HashNotFound : BufError
deriving Repr, DecidableEq

/-- The whole mutable state of a `BufMgr` object. -/
structure BufState where
  numBufs : Nat
  bufDescTable : List BufDesc
  bufPool : List Page
  hashTable : HashTbl
  clockHand : Nat
deriving Repr, DecidableEq

/-- `bufDescTable[i]`. -/
def descAt (s : BufState) (i : Nat) : BufDesc := s.bufDescTable.getD i default

/-- `bufPool[i]`. -/
def poolAt (s : BufState) (i : Nat) : Page := s.bufPool.getD i default

/-- Write one slot of `bufDescTable`. -/
def setDesc (s : BufState) (i : Nat) (d : BufDesc) : BufState :=
  { s with bufDescTable := s.bufDescTable.set i d }

/-- `BufMgr::advanceClock`: increment, then reduce modulo `numBufs` when the
incremented value is out of range. -/
def advanceClock (s : BufState) : BufState :=
  { s with clockHand :=
      if s.numBufs ≤ s.clockHand + 1 then (s.clockHand + 1) % s.numBufs
      else s.clockHand + 1 }

/-- The `while (true)` loop body of `BufMgr::allocBuf`, with explicit fuel
(the loop provably needs at most `2 * numBufs + 1` iterations; running out of
fuel yields `none`, which never happens at the fuel `allocBuf` supplies in any
state the theorems consider).  `pinned` is the local pinned-observations
counter of the C++ code. -/
def allocBufLoop : Nat → BufState → Nat → List FileOp →
    Option (Except BufError FrameId × BufState × List FileOp)
  | 0, _, _, _ => none
  | fuel + 1, s0, pinned, tr =>
      let s := advanceClock s0
      let d := descAt s s.clockHand
      if d.valid = false then
        some (Except.ok s.clockHand, s, tr)
      else if d.refbit = true then
        allocBufLoop fuel (setDesc s s.clockHand { d with refbit := false }) pinned tr
      else if 0 < d.pinCnt then
        if pinned + 1 = s.numBufs then
          some (Except.error BufError.BufferExceeded, s, tr)
        else allocBufLoop fuel s (pinned + 1) tr
      else
        let s1 := if d.dirty then setDesc s s.clockHand { d with dirty := false } else s
        let tr1 := if d.dirty then tr ++ [FileOp.writePage d.file (poolAt s s.clockHand)]
                   else tr
        let s2 :=
          match d.file with
          | some f =>
              match htRemove s1.hashTable f d.pageNo with
              | some ht => { s1 with hashTable := ht }
              | none => s1
          | none => s1
        some (Except.ok s.clockHand, s2, tr1)

/-- `BufMgr::allocBuf`. -/
def allocBuf (s : BufState) :
    Option (Except BufError FrameId × BufState × List FileOp) :=
  allocBufLoop (2 * s.numBufs + 1) s 0 []

/-- `BufMgr::readPage`.  `readF` is the oracle for `file->readPage(pageNo)`
contents; the returned `FrameId` is the handle into the pool. -/
def readPage (readF : FileId → PageId → Nat) (s : BufState) (f : FileId)
    (p : PageId) :
    Option (Except BufError FrameId × BufState × List FileOp) :=
  match htLookup s.hashTable f p with
  | some frame =>
      let d := descAt s frame
      some (Except.ok frame,
        setDesc s frame { d with refbit := true, pinCnt := d.pinCnt + 1 }, [])
  | none =>
      match allocBuf s with
      | none => none
      | some (Except.error e, s1, tr) => some (Except.error e, s1, tr)
      | some (Except.ok frame, s1, tr) =>
          some (Except.ok frame,
            { s1 with
              bufPool := s1.bufPool.set frame ⟨p, readF f p⟩,
              hashTable := htInsert s1.hashTable f p frame,
              bufDescTable := s1.bufDescTable.set frame ((descAt s1 frame).Set f p) },
            tr ++ [FileOp.readPage f p])

/-- `BufMgr::unPinPage`. -/
def unPinPage (s : BufState) (f : FileId) (p : PageId) (dirtyArg : Bool) :
    Except BufError Unit × BufState :=
  match htLookup s.hashTable f p with
  | none => (Except.ok (), s)
  | some frame =>
      let d := descAt s frame
      if 0 < d.pinCnt then
        (Except.ok (),
         setDesc s frame
           { d with pinCnt := d.pinCnt - 1,
                    dirty := if dirtyArg then true else d.dirty })
      else (Except.error (BufError.PageNotPinned d.file d.pageNo frame), s)

/-- The `for (fi = 0; fi < numBufs; fi++)` loop of `BufMgr::flushFile`,
recursing on the number of remaining frames. -/
def flushLoop (file : FileId) : Nat → Nat → BufState → List FileOp →
    Except BufError Unit × BufState × List FileOp
  | 0, _, s, tr => (Except.ok (), s, tr)
  | rem + 1, fi, s, tr =>
      let d := descAt s fi
      if d.file = some file then
        if d.valid = false then
          (Except.error (BufError.BadBuffer fi d.dirty d.valid d.refbit), s, tr)
        else if 0 < d.pinCnt then
          (Except.error (BufError.PagePinned file d.pageNo fi), s, tr)
        else
          let s1 := if d.dirty then setDesc s fi { d with dirty := false } else s
          let tr1 := if d.dirty then tr ++ [FileOp.writePage d.file (poolAt s fi)]
                     else tr
          match htRemove s1.hashTable file d.pageNo with
          | none => (Except.error BufError.HashNotFound, s1, tr1)
          | some ht =>
              flushLoop file rem (fi + 1)
                { s1 with hashTable := ht,
                          bufDescTable := s1.bufDescTable.set fi ((descAt s1 fi).Clear) }
                tr1
      else flushLoop file rem (fi + 1) s tr

/-- `BufMgr::flushFile`. -/
def flushFile (s : BufState) (file : FileId) :
    Except BufError Unit × BufState × List FileOp :=
  flushLoop file s.numBufs 0 s []

/-- `BufMgr::allocPage`.  `newPage` is the oracle for the page returned by
`file->allocatePage()`; the allocation event is recorded before `allocBuf`
runs, exactly as in the source. -/
def allocPage (s : BufState) (f : FileId) (newPage : Page) :
    Option (Except BufError (PageId × FrameId) × BufState × List FileOp) :=
  match allocBuf s with
  | none => none
  | some (Except.error e, s1, tr) =>
      some (Except.error e, s1, FileOp.allocatePage f :: tr)
  | some (Except.ok frame, s1, tr) =>
      some (Except.ok (newPage.page_number, frame),
        { s1 with
          bufPool := s1.bufPool.set frame newPage,
          hashTable := htInsert s1.hashTable f newPage.page_number frame,
          bufDescTable :=
            s1.bufDescTable.set frame ((descAt s1 frame).Set f newPage.page_number) },
        FileOp.allocatePage f :: tr)

/-- `BufMgr::disposePage`. -/
def disposePage (s : BufState) (f : FileId) (p : PageId) :
    Except BufError Unit × BufState × List FileOp :=
  let s1 :=
    match htLookup s.hashTable f p with
    | some frame =>
        match htRemove s.hashTable f p with
        | some ht =>
            { s with hashTable := ht,
                     bufDescTable := s.bufDescTable.set frame ((descAt s frame).Clear) }
        | none => s
    | none => s
  (Except.ok (), s1, [FileOp.deletePage f p])

/-- One fresh frame descriptor, as the `BufMgr` constructor makes it. -/
def initDesc (i : Nat) : BufDesc :=
  { file := none, pageNo := 0, frameNo := i, pinCnt := 0,
    dirty := false, valid := false, refbit := false }

/-- The `BufMgr(bufs)` constructor state. -/
def initState (bufs : Nat) : BufState :=
  { numBufs := bufs,
    bufDescTable := (List.range bufs).map initDesc,
    bufPool := List.replicate bufs default,
    hashTable := [],
    clockHand := bufs - 1 }

/-! ### Basic list and state lemmas -/

theorem getD_set_self {α : Type} [Inhabited α] (l : List α) (i : Nat) (a : α)
    (h : i < l.length) : (l.set i a).getD i default = a := by
  simp [List.getD, List.getElem?_set_self, h]

theorem getD_set_ne {α : Type} [Inhabited α] (l : List α) {i j : Nat} (a : α)
    (h : j ≠ i) : (l.set i a).getD j default = l.getD j default := by
  simp [List.getD, List.getElem?_set_ne (Ne.symm h)]

theorem getD_of_length_le {α : Type} [Inhabited α] (l : List α) {i : Nat}
    (h : l.length ≤ i) : l.getD i default = default := by
  simp [List.getD, List.getElem?_eq_none h]

@[simp] theorem setDesc_numBufs (s : BufState) (i : Nat) (d : BufDesc) :
    (setDesc s i d).numBufs = s.numBufs := rfl

@[simp] theorem setDesc_bufPool (s : BufState) (i : Nat) (d : BufDesc) :
    (setDesc s i d).bufPool = s.bufPool := rfl

@[simp] theorem setDesc_hashTable (s : BufState) (i : Nat) (d : BufDesc) :
    (setDesc s i d).hashTable = s.hashTable := rfl

@[simp] theorem setDesc_clockHand (s : BufState) (i : Nat) (d : BufDesc) :
    (setDesc s i d).clockHand = s.clockHand := rfl

@[simp] theorem setDesc_length (s : BufState) (i : Nat) (d : BufDesc) :
    (setDesc s i d).bufDescTable.length = s.bufDescTable.length := by
  simp [setDesc]

theorem descAt_setDesc_self (s : BufState) (i : Nat) (d : BufDesc)
    (h : i < s.bufDescTable.length) : descAt (setDesc s i d) i = d :=
  getD_set_self _ _ _ h

theorem descAt_setDesc_ne (s : BufState) {i j : Nat} (d : BufDesc)
    (h : j ≠ i) : descAt (setDesc s i d) j = descAt s j :=
  getD_set_ne _ _ h

@[simp] theorem advanceClock_numBufs (s : BufState) :
    (advanceClock s).numBufs = s.numBufs := rfl

@[simp] theorem advanceClock_bufDescTable (s : BufState) :
    (advanceClock s).bufDescTable = s.bufDescTable := rfl

@[simp] theorem advanceClock_bufPool (s : BufState) :
    (advanceClock s).bufPool = s.bufPool := rfl

@[simp] theorem advanceClock_hashTable (s : BufState) :
    (advanceClock s).hashTable = s.hashTable := rfl

@[simp] theorem descAt_advanceClock (s : BufState) (i : Nat) :
    descAt (advanceClock s) i = descAt s i := rfl

@[simp] theorem poolAt_advanceClock (s : BufState) (i : Nat) :
    poolAt (advanceClock s) i = poolAt s i := rfl

@[simp] theorem poolAt_setDesc (s : BufState) (i j : Nat) (d : BufDesc) :
    poolAt (setDesc s i d) j = poolAt s j := rfl

theorem advanceClock_lt (s : BufState) (h0 : 0 < s.numBufs) :
    (advanceClock s).clockHand < s.numBufs := by
  unfold advanceClock
  dsimp only
  split
  · exact Nat.mod_lt _ h0
  · omega

theorem advanceClock_eq_mod (s : BufState) (h0 : 0 < s.numBufs)
    (hch : s.clockHand < s.numBufs) :
    (advanceClock s).clockHand = (s.clockHand + 1) % s.numBufs := by
  unfold advanceClock
  dsimp only
  split
  · rfl
  · rw [Nat.mod_eq_of_lt (by omega)]

/-! ### Hash-table lemmas -/

theorem htLookup_mem {ht : HashTbl} {f : FileId} {p : PageId} {fr : FrameId}
    (h : htLookup ht f p = some fr) : (f, p, fr) ∈ ht := by
  induction ht with
  | nil => simp [htLookup] at h
  | cons e rest ih =>
      by_cases hk : e.1 = f ∧ e.2.1 = p
      · rw [htLookup, if_pos hk] at h
        have he : e = (f, p, fr) := by
          obtain ⟨h1, h2⟩ := hk
          obtain ⟨a, b, c⟩ := e
          simp_all
        rw [he]
        exact List.mem_cons_self _ _
      · rw [htLookup, if_neg hk] at h
        exact List.mem_cons_of_mem _ (ih h)

theorem htLookup_eq_none_iff {ht : HashTbl} {f : FileId} {p : PageId} :
    htLookup ht f p = none ↔ ∀ e ∈ ht, ¬(e.1 = f ∧ e.2.1 = p) := by
  induction ht with
  | nil => simp [htLookup]
  | cons e rest ih =>
      by_cases hk : e.1 = f ∧ e.2.1 = p
      · rw [htLookup, if_pos hk]
        simp only [List.mem_cons]
        constructor
        · intro h; exact absurd h (by simp)
        · intro h; exact absurd hk (h e (Or.inl rfl))
      · rw [htLookup, if_neg hk]
        rw [ih]
        constructor
        · intro h e2 he2
          rcases List.mem_cons.mp he2 with h1 | h2
          · rw [h1]; exact hk
          · exact h e2 h2
        · intro h e2 he2
          exact h e2 (List.mem_cons_of_mem _ he2)

theorem htRemove_eq_none_iff {ht : HashTbl} {f : FileId} {p : PageId} :
    htRemove ht f p = none ↔ ∀ e ∈ ht, ¬(e.1 = f ∧ e.2.1 = p) := by
  induction ht with
  | nil => simp [htRemove]
  | cons e rest ih =>
      by_cases hk : e.1 = f ∧ e.2.1 = p
      · rw [htRemove, if_pos hk]
        simp only [List.mem_cons]
        constructor
        · intro h; exact absurd h (by simp)
        · intro h; exact absurd hk (h e (Or.inl rfl))
      · rw [htRemove, if_neg hk]
        rcases hrest : htRemove rest f p with _ | ht2
        · simp only [List.mem_cons]
          constructor
          · intro _ e2 he2
            rcases he2 with h1 | h2
            · rw [h1]; exact hk
            · exact (ih.mp hrest) e2 h2
          · intro _; trivial
        · simp only [List.mem_cons]
          constructor
          · intro h; exact absurd h (by simp)
          · intro h
            have : htRemove rest f p = none := by
              rw [ih]; intro e2 he2; exact h e2 (Or.inr he2)
            rw [this] at hrest; exact absurd hrest (by simp)

theorem htRemove_spec {ht : HashTbl} {f : FileId} {p : PageId} {ht' : HashTbl}
    (h : htRemove ht f p = some ht') :
    ∃ pre e post, ht = pre ++ e :: post ∧ ht' = pre ++ post ∧
      e.1 = f ∧ e.2.1 = p ∧ ∀ e2 ∈ pre, ¬(e2.1 = f ∧ e2.2.1 = p) := by
  induction ht generalizing ht' with
  | nil => simp [htRemove] at h
  | cons e rest ih =>
      by_cases hk : e.1 = f ∧ e.2.1 = p
      · rw [htRemove, if_pos hk] at h
        refine ⟨[], e, rest, by simp, by simpa using h.symm, hk.1, hk.2, by simp⟩
      · rw [htRemove, if_neg hk] at h
        rcases hrest : htRemove rest f p with _ | ht2
        · rw [hrest] at h; exact absurd h (by simp)
        · rw [hrest] at h
          have hht' : ht' = e :: ht2 := by
            have := h; simp at this; exact this.symm
          obtain ⟨pre, e0, post, h1, h2, h3, h4, h5⟩ := ih hrest
          refine ⟨e :: pre, e0, post, by rw [h1]; simp, by rw [hht', h2]; simp,
            h3, h4, ?_⟩
          intro e2 he2
          rcases List.mem_cons.mp he2 with hx | hx
          · rw [hx]; exact hk
          · exact h5 e2 hx

/-! ### The central invariant -/

/-- Every index entry points to an in-range, valid frame whose own
`file`/`pageNo` fields equal the entry's key. -/
def entryOk (s : BufState) (e : FileId × PageId × FrameId) : Prop :=
  e.2.2 < s.numBufs ∧
  (descAt s e.2.2).valid = true ∧
  (descAt s e.2.2).file = some e.1 ∧
  (descAt s e.2.2).pageNo = e.2.1

/-- A valid frame owns an index entry with its own key; an invalid frame has
no owning file and no pins. -/
def frameOk (s : BufState) (i : Nat) : Prop :=
  ((descAt s i).valid = true →
     (descAt s i).file = some ((descAt s i).file.getD 0) ∧
     ((descAt s i).file.getD 0, (descAt s i).pageNo, i) ∈ s.hashTable) ∧
  ((descAt s i).valid = false →
     (descAt s i).file = none ∧ (descAt s i).pinCnt = 0)

/-- Index entries have pairwise distinct (file, pageNo) keys and pairwise
distinct frames. -/
def entriesDistinct (ht : HashTbl) : Prop :=
  List.Pairwise (fun a b => ¬(a.1 = b.1 ∧ a.2.1 = b.2.1) ∧ a.2.2 ≠ b.2.2) ht

/-- The bidirectional consistency invariant between the frame descriptor
table and the page identity index, together with well-formedness of the
sizes and the clock hand. -/
def BufInv (s : BufState) : Prop :=
  0 < s.numBufs ∧
  s.bufDescTable.length = s.numBufs ∧
  s.bufPool.length = s.numBufs ∧
  s.clockHand < s.numBufs ∧
  (∀ e ∈ s.hashTable, entryOk s e) ∧
  (∀ i ∈ List.range s.numBufs, frameOk s i) ∧
  entriesDistinct s.hashTable

theorem entriesDistinct_of_sublist {ht ht' : HashTbl}
    (hs : List.Sublist ht' ht) (h : entriesDistinct ht) : entriesDistinct ht' :=
  h.sublist hs

/-- Removal of a present key under distinctness: it succeeds, removes exactly
the unique entry carrying that key, and leaves everything else. -/
theorem htRemove_of_mem {ht : HashTbl} {f : FileId} {p : PageId} {fr : FrameId}
    (hd : entriesDistinct ht) (hm : (f, p, fr) ∈ ht) :
    ∃ ht', htRemove ht f p = some ht' ∧ List.Sublist ht' ht ∧
      (∀ e, e ∈ ht' ↔ e ∈ ht ∧ e ≠ (f, p, fr)) := by
  rcases hrem : htRemove ht f p with _ | ht'
  · exfalso
    exact (htRemove_eq_none_iff.mp hrem) (f, p, fr) hm (by simp)
  · obtain ⟨pre, e, post, hht, hht', hef, hep, hpre⟩ := htRemove_spec hrem
    have hsub : List.Sublist ht' ht := by
      rw [hht, hht']
      exact List.Sublist.append_left (List.sublist_cons_self e post) pre
    have hpw : List.Pairwise
        (fun a b => ¬(a.1 = b.1 ∧ a.2.1 = b.2.1) ∧ a.2.2 ≠ b.2.2) ht := hd
    rw [hht] at hpw
    rw [List.pairwise_append] at hpw
    obtain ⟨hpw1, hpw2, hpw3⟩ := hpw
    rw [List.pairwise_cons] at hpw2
    obtain ⟨hpw2a, _⟩ := hpw2
    -- the removed entry is exactly (f, p, fr)
    have he : e = (f, p, fr) := by
      rw [hht] at hm
      rcases List.mem_append.mp hm with hx | hx
      · exact absurd ⟨rfl, rfl⟩ (hpre _ hx)
      · rcases List.mem_cons.mp hx with hx | hx
        · exact hx.symm
        · exact absurd ⟨hef, hep⟩ (fun hcon => (hpw2a _ hx).1 hcon)
    subst he
    -- the removed entry does not occur elsewhere
    have hnot : (f, p, fr) ∉ pre ++ post := by
      intro hx
      rcases List.mem_append.mp hx with hx | hx
      · exact (hpre _ hx) ⟨hef, hep⟩
      · exact (hpw2a _ hx).1 ⟨rfl, rfl⟩
    refine ⟨ht', rfl, hsub, ?_⟩
    intro e2
    constructor
    · intro h2
      refine ⟨hsub.mem h2, ?_⟩
      intro hcon
      rw [hcon, hht'] at h2
      exact hnot h2
    · rintro ⟨h2, hne⟩
      rw [hht] at h2
      rw [hht']
      rcases List.mem_append.mp h2 with hx | hx
      · exact List.mem_append.mpr (Or.inl hx)
      · rcases List.mem_cons.mp hx with hx | hx
        · exact absurd hx hne
        · exact List.mem_append.mpr (Or.inr hx)

theorem htLookup_none_of_sublist {ht ht' : HashTbl} {f : FileId} {p : PageId}
    (hs : List.Sublist ht' ht) (h : htLookup ht f p = none) :
    htLookup ht' f p = none := by
  rw [htLookup_eq_none_iff] at h ⊢
  intro e he
  exact h e (hs.mem he)

/-! ### Invariant preservation building blocks -/

theorem descAt_initState {n i : Nat} (h : i < n) :
    descAt (initState n) i = initDesc i := by
  have hlen : ((List.range n).map initDesc).length = n := by simp
  rw [descAt, initState]
  rw [List.getD_eq_getElem _ _ (by simpa [hlen] using h)]
  simp

theorem bufInv_initState {n : Nat} (h : 0 < n) : BufInv (initState n) := by
  refine ⟨h, by simp [initState], by simp [initState], ?_, ?_, ?_, ?_⟩
  · show n - 1 < n
    omega
  · intro e he
    simp [initState] at he
  · intro i hi
    have hi2 : i < n := by simpa [initState] using hi
    have hd : descAt (initState n) i = initDesc i := descAt_initState hi2
    constructor
    · intro hv
      rw [hd] at hv
      simp [initDesc] at hv
    · intro _
      rw [hd]
      exact ⟨rfl, rfl⟩
  · simp [initState, entriesDistinct]

/-- Updating one slot with a descriptor that keeps `valid`, `file`, `pageNo`
(and keeps `pinCnt` when the slot is invalid) preserves the invariant. -/
theorem bufInv_update_core {s : BufState} {i : Nat} {d' : BufDesc}
    (h : BufInv s) (hi : i < s.numBufs)
    (hv : d'.valid = (descAt s i).valid)
    (hf : d'.file = (descAt s i).file)
    (hp : d'.pageNo = (descAt s i).pageNo)
    (hpin : (descAt s i).valid = false → d'.pinCnt = (descAt s i).pinCnt) :
    BufInv (setDesc s i d') := by
  obtain ⟨h0, hlen, hplen, hch, hent, hfr, hdist⟩ := h
  have hilen : i < s.bufDescTable.length := by omega
  have hat : ∀ j, j ≠ i → descAt (setDesc s i d') j = descAt s j :=
    fun j hj => descAt_setDesc_ne s d' hj
  have hati : descAt (setDesc s i d') i = d' := descAt_setDesc_self s i d' hilen
  refine ⟨h0, by simpa using hlen, by simpa using hplen, by simpa using hch,
    ?_, ?_, ?_⟩
  · intro e he
    simp only [setDesc_hashTable] at he
    obtain ⟨he1, he2, he3, he4⟩ := hent e he
    by_cases hei : e.2.2 = i
    · rw [hei] at he2 he3 he4
      exact ⟨by simpa using he1, by rw [hei, hati, hv]; exact he2,
        by rw [hei, hati, hf]; exact he3, by rw [hei, hati, hp]; exact he4⟩
    · exact ⟨by simpa using he1, by rw [hat _ hei]; exact he2,
        by rw [hat _ hei]; exact he3, by rw [hat _ hei]; exact he4⟩
  · intro j hj
    simp only [setDesc_numBufs] at hj
    obtain ⟨hfo1, hfo2⟩ := hfr j hj
    by_cases hji : j = i
    · subst hji
      constructor
      · intro hvv
        rw [hati] at hvv ⊢
        rw [hv] at hvv
        obtain ⟨ha, hb⟩ := hfo1 hvv
        simp only [setDesc_hashTable]
        rw [hf, hp]
        exact ⟨ha, hb⟩
      · intro hvv
        rw [hati] at hvv ⊢
        rw [hv] at hvv
        obtain ⟨ha, hb⟩ := hfo2 hvv
        exact ⟨by rw [hf]; exact ha, by rw [hpin hvv]; exact hb⟩
    · rw [frameOk, hat _ hji]
      simp only [setDesc_hashTable]
      exact ⟨hfo1, hfo2⟩
  · simpa [entriesDistinct] using hdist

/-- Removing frame `fr`'s own index entry and clearing its descriptor
preserves the invariant. -/
theorem bufInv_remove_clear {s : BufState} {f : FileId} {p : PageId}
    {fr : FrameId} {ht' : HashTbl}
    (h : BufInv s) (hm : (f, p, fr) ∈ s.hashTable)
    (hrem : htRemove s.hashTable f p = some ht') :
    BufInv { s with hashTable := ht',
                    bufDescTable := s.bufDescTable.set fr ((descAt s fr).Clear) } := by
  obtain ⟨h0, hlen, hplen, hch, hent, hfr, hdist⟩ := h
  have heOk := hent _ hm
  have hfr1 : fr < s.numBufs := heOk.1
  have hfr3 : (descAt s fr).file = some f := heOk.2.2.1
  have hfr4 : (descAt s fr).pageNo = p := heOk.2.2.2
  have hflen : fr < s.bufDescTable.length := by rw [hlen]; exact hfr1
  obtain ⟨ht2, hrem2, hsub, hmem⟩ := htRemove_of_mem hdist hm
  rw [hrem] at hrem2
  have hht : ht' = ht2 := by injection hrem2
  subst hht
  set s' : BufState :=
    { s with hashTable := ht',
             bufDescTable := s.bufDescTable.set fr ((descAt s fr).Clear) } with hs'
  have hat : ∀ j, j ≠ fr → descAt s' j = descAt s j := by
    intro j hj
    rw [hs', descAt, descAt]
    exact getD_set_ne _ _ hj
  have hatf : descAt s' fr = (descAt s fr).Clear := by
    rw [hs', descAt]
    exact getD_set_self _ _ _ hflen
  refine ⟨h0, by simp [hs', hlen], by simp [hs', hplen], by simp [hs', hch],
    ?_, ?_, ?_⟩
  · intro e he
    have he2 : e ∈ s.hashTable ∧ e ≠ (f, p, fr) := (hmem e).mp he
    obtain ⟨he1, hb, hc, hd⟩ := hent e he2.1
    have hefr : e.2.2 ≠ fr := by
      intro hcon
      apply he2.2
      have hef : e.1 = f := by
        rw [hcon] at hc
        rw [hc] at hfr3
        exact Option.some.inj hfr3
      have hep : e.2.1 = p := by
        rw [hcon] at hd
        rw [hd] at hfr4
        exact hfr4
      obtain ⟨a, b, c⟩ := e
      simp only at hef hep hcon
      rw [hef, hep, hcon]
    exact ⟨(he1 : e.2.2 < s.numBufs), by rw [hat _ hefr]; exact hb,
      by rw [hat _ hefr]; exact hc, by rw [hat _ hefr]; exact hd⟩
  · intro j hj
    have hj' : j < s.numBufs := by simpa [hs'] using hj
    by_cases hji : j = fr
    · subst hji
      constructor
      · intro hvv
        rw [hatf] at hvv
        simp [BufDesc.Clear] at hvv
      · intro _
        rw [hatf]
        exact ⟨rfl, rfl⟩
    · obtain ⟨hfo1, hfo2⟩ := hfr j (by simpa using hj')
      constructor
      · intro hvv
        rw [hat _ hji] at hvv ⊢
        obtain ⟨ha, hb⟩ := hfo1 hvv
        refine ⟨ha, ?_⟩
        show _ ∈ ht'
        rw [hmem]
        refine ⟨hb, ?_⟩
        intro hcon
        have : ((descAt s j).file.getD 0, (descAt s j).pageNo, j).2.2 = fr := by
          rw [hcon]
        exact hji this
      · intro hvv
        rw [hat _ hji] at hvv ⊢
        exact hfo2 hvv
  · show entriesDistinct ht'
    exact entriesDistinct_of_sublist hsub hdist

/-! ### Analysis of a successful `allocBuf` -/

/-- What a successful `allocBuf` guarantees about the state it hands back,
relative to the state it started from: all invariant components hold except
possibly at the returned frame, no index entry points to the returned frame,
the index only shrank, pin counts are untouched and the returned frame is
unpinned. -/
structure PostAlloc (s s' : BufState) (fr : FrameId) : Prop where
  numBufs_eq : s'.numBufs = s.numBufs
  len_eq : s'.bufDescTable.length = s.bufDescTable.length
  pool_eq : s'.bufPool = s.bufPool
  hand_lt : s'.clockHand < s'.numBufs
  fr_lt : fr < s'.numBufs
  entries : ∀ e ∈ s'.hashTable, entryOk s' e
  frames : ∀ i ∈ List.range s'.numBufs, i ≠ fr → frameOk s' i
  not_fr : ∀ e ∈ s'.hashTable, e.2.2 ≠ fr
  distinct : entriesDistinct s'.hashTable
  absent : ∀ f p, htLookup s.hashTable f p = none → htLookup s'.hashTable f p = none
  pin_fr : (descAt s' fr).pinCnt = 0
  pin_eq : ∀ i, (descAt s' i).pinCnt = (descAt s i).pinCnt

/-- Relation between consecutive loop states of `allocBuf` before the victim
step: only `clockHand` and `refbit`/`dirty` bits move. -/
structure PreStep (s sb : BufState) : Prop where
  numBufs_eq : sb.numBufs = s.numBufs
  len_eq : sb.bufDescTable.length = s.bufDescTable.length
  pool_eq : sb.bufPool = s.bufPool
  ht_eq : sb.hashTable = s.hashTable
  pin_eq : ∀ i, (descAt sb i).pinCnt = (descAt s i).pinCnt

theorem PostAlloc.comp {s sb s' : BufState} {fr : FrameId}
    (h1 : PreStep s sb) (h2 : PostAlloc sb s' fr) : PostAlloc s s' fr where
  numBufs_eq := h2.numBufs_eq.trans h1.numBufs_eq
  len_eq := h2.len_eq.trans h1.len_eq
  pool_eq := h2.pool_eq.trans h1.pool_eq
  hand_lt := h2.hand_lt
  fr_lt := h2.fr_lt
  entries := h2.entries
  frames := h2.frames
  not_fr := h2.not_fr
  distinct := h2.distinct
  absent := fun f p h => h2.absent f p (by rw [h1.ht_eq]; exact h)
  pin_fr := h2.pin_fr
  pin_eq := fun i => (h2.pin_eq i).trans (h1.pin_eq i)

theorem preStep_advanceClock (s : BufState) : PreStep s (advanceClock s) where
  numBufs_eq := rfl
  len_eq := rfl
  pool_eq := rfl
  ht_eq := rfl
  pin_eq := fun _ => rfl

theorem preStep_setDesc {s : BufState} {i : Nat} {d' : BufDesc}
    (hlt : i < s.bufDescTable.length)
    (hpin : d'.pinCnt = (descAt s i).pinCnt) : PreStep s (setDesc s i d') where
  numBufs_eq := rfl
  len_eq := by simp
  pool_eq := rfl
  ht_eq := rfl
  pin_eq := fun j => by
    by_cases hji : j = i
    · subst hji
      rw [descAt_setDesc_self _ _ _ hlt, hpin]
    · rw [descAt_setDesc_ne _ _ hji]

theorem PreStep.trans {s sa sb : BufState} (h1 : PreStep s sa)
    (h2 : PreStep sa sb) : PreStep s sb where
  numBufs_eq := h2.numBufs_eq.trans h1.numBufs_eq
  len_eq := h2.len_eq.trans h1.len_eq
  pool_eq := h2.pool_eq.trans h1.pool_eq
  ht_eq := h2.ht_eq.trans h1.ht_eq
  pin_eq := fun i => (h2.pin_eq i).trans (h1.pin_eq i)

theorem bufInv_advanceClock {s : BufState} (h : BufInv s) :
    BufInv (advanceClock s) := by
  obtain ⟨h0, hlen, hplen, _, hent, hfrm, hdist⟩ := h
  exact ⟨h0, hlen, hplen, advanceClock_lt s h0, hent, hfrm, hdist⟩

/-- One unfolding of the `allocBuf` loop. -/
theorem allocBufLoop_succ (fuel : Nat) (s0 : BufState) (pinned : Nat)
    (tr : List FileOp) :
    allocBufLoop (fuel + 1) s0 pinned tr =
      (let s := advanceClock s0
       let d := descAt s s.clockHand
       if d.valid = false then
         some (Except.ok s.clockHand, s, tr)
       else if d.refbit = true then
         allocBufLoop fuel (setDesc s s.clockHand { d with refbit := false }) pinned tr
       else if 0 < d.pinCnt then
         if pinned + 1 = s.numBufs then
           some (Except.error BufError.BufferExceeded, s, tr)
         else allocBufLoop fuel s (pinned + 1) tr
       else
         let s1 := if d.dirty then setDesc s s.clockHand { d with dirty := false } else s
         let tr1 := if d.dirty then tr ++ [FileOp.writePage d.file (poolAt s s.clockHand)]
                    else tr
         let s2 :=
           match d.file with
           | some f =>
               match htRemove s1.hashTable f d.pageNo with
               | some ht => { s1 with hashTable := ht }
               | none => s1
           | none => s1
         some (Except.ok s.clockHand, s2, tr1)) := rfl

@[simp] theorem numBufs_mk (a : Nat) (b : List BufDesc) (c : List Page)
    (d : HashTbl) (e : Nat) : (BufState.mk a b c d e).numBufs = a := rfl

@[simp] theorem bufDescTable_mk (a : Nat) (b : List BufDesc) (c : List Page)
    (d : HashTbl) (e : Nat) : (BufState.mk a b c d e).bufDescTable = b := rfl

@[simp] theorem bufPool_mk (a : Nat) (b : List BufDesc) (c : List Page)
    (d : HashTbl) (e : Nat) : (BufState.mk a b c d e).bufPool = c := rfl

@[simp] theorem hashTable_mk (a : Nat) (b : List BufDesc) (c : List Page)
    (d : HashTbl) (e : Nat) : (BufState.mk a b c d e).hashTable = d := rfl

@[simp] theorem clockHand_mk (a : Nat) (b : List BufDesc) (c : List Page)
    (d : HashTbl) (e : Nat) : (BufState.mk a b c d e).clockHand = e := rfl

@[simp] theorem descAt_mk (a : Nat) (b : List BufDesc) (c : List Page)
    (d : HashTbl) (e : Nat) (i : Nat) :
    descAt (BufState.mk a b c d e) i = b.getD i default := rfl

@[simp] theorem poolAt_mk (a : Nat) (b : List BufDesc) (c : List Page)
    (d : HashTbl) (e : Nat) (i : Nat) :
    poolAt (BufState.mk a b c d e) i = c.getD i default := rfl

/-- The victim branch of the `allocBuf` loop: the state handed back (the
intermediate `s1`, with the victim's index entry removed) satisfies
`PostAlloc` relative to the loop state `sa` it was reached from. -/
theorem postAlloc_of_victim {sa s1 : BufState} {hand : FrameId} {f0 : FileId}
    {ht2 : HashTbl}
    (hInva : BufInv sa)
    (h1num : s1.numBufs = sa.numBufs)
    (h1len : s1.bufDescTable.length = sa.bufDescTable.length)
    (h1pool : s1.bufPool = sa.bufPool)
    (h1ht : s1.hashTable = sa.hashTable)
    (h1clock : s1.clockHand = sa.clockHand)
    (h1desc : ∀ j, j ≠ hand → descAt s1 j = descAt sa j)
    (h1pin : (descAt s1 hand).pinCnt = (descAt sa hand).pinCnt)
    (hhand : hand = sa.clockHand)
    (hpin0 : ¬ 0 < (descAt sa hand).pinCnt)
    (hfile : (descAt sa hand).file = some f0)
    (hmem : (f0, (descAt sa hand).pageNo, hand) ∈ sa.hashTable)
    (hrem : htRemove s1.hashTable f0 (descAt sa hand).pageNo = some ht2) :
    PostAlloc sa { s1 with hashTable := ht2 } hand := by
  obtain ⟨h0, hlen, hplen, hch, hent, hfrm, hdist⟩ := hInva
  have hmem1 : (f0, (descAt sa hand).pageNo, hand) ∈ s1.hashTable := by
    rw [h1ht]; exact hmem
  have hdist1 : entriesDistinct s1.hashTable := by rw [h1ht]; exact hdist
  obtain ⟨ht3, hrem3, hsub, hmemc⟩ := htRemove_of_mem hdist1 hmem1
  rw [hrem] at hrem3
  have hht23 : ht2 = ht3 := by injection hrem3
  subst hht23
  have hsub' : List.Sublist ht2 sa.hashTable := by rw [h1ht] at hsub; exact hsub
  have hnotfr : ∀ e ∈ ht2, e.2.2 ≠ hand := by
    intro e he hcon
    obtain ⟨hea, heb⟩ := (hmemc e).mp he
    have hea' : e ∈ sa.hashTable := by rw [h1ht] at hea; exact hea
    have heOk := hent e hea'
    apply heb
    have he1 : e.1 = f0 := by
      have hq := heOk.2.2.1
      rw [hcon, hfile] at hq
      exact (Option.some.inj hq).symm
    have he2 : e.2.1 = (descAt sa hand).pageNo := by
      have hq := heOk.2.2.2
      rw [hcon] at hq
      exact hq.symm
    obtain ⟨a, b, c⟩ := e
    simp only at he1 he2 hcon
    rw [he1, he2, hcon]
  have hhlt : hand < sa.numBufs := by rw [hhand]; exact hch
  refine ⟨by simp [h1num], by simp [h1len], by simp [h1pool],
    by simp [h1clock, h1num]; exact hch, by simp [h1num]; exact hhlt,
    ?_, ?_, ?_, ?_, ?_, ?_, ?_⟩
  · -- entries of the shrunk index still point at matching valid frames
    intro e he
    simp only [hashTable_mk] at he
    obtain ⟨hea, _⟩ := (hmemc e).mp he
    have hea' : e ∈ sa.hashTable := by rw [h1ht] at hea; exact hea
    obtain ⟨q1, q2, q3, q4⟩ := hent e hea'
    have hne : e.2.2 ≠ hand := hnotfr e he
    have hdesc : descAt { s1 with hashTable := ht2 } e.2.2 = descAt sa e.2.2 := by
      simp only [descAt_mk]
      exact h1desc _ hne
    exact ⟨by simp [h1num]; exact q1, by rw [hdesc]; exact q2,
      by rw [hdesc]; exact q3, by rw [hdesc]; exact q4⟩
  · -- frames other than the victim still satisfy frameOk
    intro i hi hine
    rw [List.mem_range] at hi
    simp only [numBufs_mk] at hi
    have hi' : i < sa.numBufs := by rw [h1num] at hi; exact hi
    obtain ⟨q1, q2⟩ := hfrm i (List.mem_range.mpr hi')
    have hdesc : descAt { s1 with hashTable := ht2 } i = descAt sa i := by
      simp only [descAt_mk]
      exact h1desc _ hine
    constructor
    · intro hvv
      rw [hdesc] at hvv ⊢
      obtain ⟨qa, qb⟩ := q1 hvv
      refine ⟨qa, ?_⟩
      simp only [hashTable_mk]
      rw [hmemc]
      refine ⟨by rw [h1ht]; exact qb, ?_⟩
      intro hcon
      have : ((descAt sa i).file.getD 0, (descAt sa i).pageNo, i).2.2 = hand := by
        rw [hcon]
      exact hine this
    · intro hvv
      rw [hdesc] at hvv ⊢
      exact q2 hvv
  · -- no surviving entry points at the victim
    intro e he
    simp only [hashTable_mk] at he
    exact hnotfr e he
  · -- distinctness survives removal
    show entriesDistinct ht2
    exact entriesDistinct_of_sublist hsub' hdist
  · -- absent keys stay absent
    intro f p h
    simp only [hashTable_mk]
    exact htLookup_none_of_sublist hsub' h
  · -- the victim frame is unpinned
    simp only [descAt_mk]
    show (descAt s1 hand).pinCnt = 0
    rw [h1pin]
    omega
  · -- pin counts everywhere are untouched
    intro i
    simp only [descAt_mk]
    show (descAt s1 i).pinCnt = (descAt sa i).pinCnt
    by_cases hih : i = hand
    · rw [hih, h1pin]
    · rw [h1desc _ hih]


@[simp] theorem setDesc_bufDescTable (s : BufState) (i : Nat) (d : BufDesc) :
    (setDesc s i d).bufDescTable = s.bufDescTable.set i d := rfl

/-- A successful run of the `allocBuf` loop establishes `PostAlloc`. -/
theorem allocBufLoop_post :
    ∀ (fuel : Nat) (s : BufState) (pinned : Nat) (tr : List FileOp)
      (r : FrameId) (s2 : BufState) (tr2 : List FileOp),
      BufInv s →
      allocBufLoop fuel s pinned tr = some (Except.ok r, s2, tr2) →
      PostAlloc s s2 r := by
  intro fuel
  induction fuel with
  | zero =>
      intro s pinned tr r s2 tr2 _ hrun
      simp [allocBufLoop] at hrun
  | succ fuel ih =>
      intro s pinned tr r s2 tr2 hInv hrun
      rw [allocBufLoop_succ] at hrun
      dsimp only at hrun
      set sa := advanceClock s with hsa
      set d := descAt sa sa.clockHand with hd
      have hInva : BufInv sa := by rw [hsa]; exact bufInv_advanceClock hInv
      have h0 : 0 < sa.numBufs := hInva.1
      have hlen : sa.bufDescTable.length = sa.numBufs := hInva.2.1
      have hch : sa.clockHand < sa.numBufs := hInva.2.2.2.1
      have hent := hInva.2.2.2.2.1
      have hfrm := hInva.2.2.2.2.2.1
      have hdist := hInva.2.2.2.2.2.2
      have hchlen : sa.clockHand < sa.bufDescTable.length := by omega
      by_cases hval : d.valid = false
      · rw [if_pos hval] at hrun
        simp only [Option.some.injEq, Prod.mk.injEq, Except.ok.injEq] at hrun
        obtain ⟨hr, hs2, htr⟩ := hrun
        subst hr
        subst hs2
        have hfo := hfrm sa.clockHand (List.mem_range.mpr hch)
        have hval' : (descAt sa sa.clockHand).valid = false := by rw [← hd]; exact hval
        refine PostAlloc.comp (preStep_advanceClock s) ?_
        refine ⟨rfl, rfl, rfl, hch, hch, hent, fun i hi _ => hfrm i hi, ?_,
          hdist, fun f p h => h, (hfo.2 hval').2, fun i => rfl⟩
        intro e he hcon
        have hq := (hent e he).2.1
        rw [hcon, hval'] at hq
        exact Bool.false_ne_true hq
      · rw [if_neg hval] at hrun
        by_cases href : d.refbit = true
        · rw [if_pos href] at hrun
          set d2 : BufDesc := { d with refbit := false } with hd2
          have hsb : BufInv (setDesc sa sa.clockHand d2) :=
            bufInv_update_core hInva hch
              (show d.valid = (descAt sa sa.clockHand).valid by rw [← hd])
              (show d.file = (descAt sa sa.clockHand).file by rw [← hd])
              (show d.pageNo = (descAt sa sa.clockHand).pageNo by rw [← hd])
              (fun _ => show d.pinCnt = (descAt sa sa.clockHand).pinCnt by rw [← hd])
          have hpre : PreStep sa (setDesc sa sa.clockHand d2) :=
            @preStep_setDesc sa sa.clockHand d2 hchlen
              (show d.pinCnt = (descAt sa sa.clockHand).pinCnt by rw [← hd])
          have hpost := ih _ pinned tr r s2 tr2 hsb hrun
          exact PostAlloc.comp ((preStep_advanceClock s).trans hpre) hpost
        · rw [if_neg href] at hrun
          by_cases hpin : 0 < d.pinCnt
          · rw [if_pos hpin] at hrun
            by_cases hpn : pinned + 1 = sa.numBufs
            · rw [if_pos hpn] at hrun
              simp at hrun
            · rw [if_neg hpn] at hrun
              have hpost := ih _ (pinned + 1) tr r s2 tr2 hInva hrun
              exact PostAlloc.comp (preStep_advanceClock s) hpost
          · rw [if_neg hpin] at hrun
            have hvalid : d.valid = true := by
              revert hval
              cases d.valid <;> simp
            have hfo := hfrm sa.clockHand (List.mem_range.mpr hch)
            have hvalid' : (descAt sa sa.clockHand).valid = true := by
              rw [← hd]; exact hvalid
            obtain ⟨hfile', hmem'⟩ := hfo.1 hvalid'
            have hfile : d.file = some (d.file.getD 0) := by rw [hd]; exact hfile'
            have hmem : (d.file.getD 0, d.pageNo, sa.clockHand) ∈ sa.hashTable := by
              rw [hd]; exact hmem'
            have hpin0' : ¬ 0 < (descAt sa sa.clockHand).pinCnt := by
              rw [← hd]; exact hpin
            by_cases hdirty : d.dirty = true
            · rw [if_pos hdirty, if_pos hdirty] at hrun
              set d1 : BufDesc := { d with dirty := false } with hd1
              set s1 := setDesc sa sa.clockHand d1 with hs1
              have hs1ht : s1.hashTable = sa.hashTable := by rw [hs1]; simp
              rw [hfile, hs1ht] at hrun
              dsimp only at hrun
              obtain ⟨ht2, hrem, hsub, hmemc⟩ := htRemove_of_mem hdist hmem
              rw [hrem] at hrun
              dsimp only at hrun
              simp only [Option.some.injEq, Prod.mk.injEq, Except.ok.injEq] at hrun
              obtain ⟨hr, hs2, htr⟩ := hrun
              subst hr
              refine PostAlloc.comp (preStep_advanceClock s) ?_
              have hgoal : PostAlloc sa { s1 with hashTable := ht2 } sa.clockHand := by
                refine postAlloc_of_victim hInva (by rw [hs1]; simp)
                  (by rw [hs1]; simp) (by rw [hs1]; simp) hs1ht (by rw [hs1]; simp)
                  ?_ ?_ rfl hpin0' (by rw [← hd]; exact hfile)
                  (by rw [← hd]; exact hmem) ?_
                · intro j hj
                  rw [hs1]
                  exact descAt_setDesc_ne sa _ hj
                · rw [hs1, descAt_setDesc_self sa _ _ hchlen, ← hd]
                · rw [hs1ht, ← hd]
                  exact hrem
              have hs2' : s2 = { s1 with hashTable := ht2 } := hs2.symm
              rw [hs2']
              exact hgoal
            · rw [if_neg hdirty, if_neg hdirty] at hrun
              rw [hfile] at hrun
              dsimp only at hrun
              obtain ⟨ht2, hrem, hsub, hmemc⟩ := htRemove_of_mem hdist hmem
              rw [hrem] at hrun
              dsimp only at hrun
              simp only [Option.some.injEq, Prod.mk.injEq, Except.ok.injEq] at hrun
              obtain ⟨hr, hs2, htr⟩ := hrun
              subst hr
              refine PostAlloc.comp (preStep_advanceClock s) ?_
              have hgoal : PostAlloc sa { sa with hashTable := ht2 } sa.clockHand := by
                refine postAlloc_of_victim hInva rfl rfl rfl rfl rfl
                  (fun j hj => rfl) rfl rfl hpin0' (by rw [← hd]; exact hfile)
                  (by rw [← hd]; exact hmem) (by rw [← hd]; exact hrem)
              have hs2' : s2 = { sa with hashTable := ht2 } := hs2.symm
              rw [hs2']
              exact hgoal

theorem allocBuf_post {s : BufState} {fr : FrameId} {s1 : BufState}
    {tr : List FileOp} (h : BufInv s)
    (hrun : allocBuf s = some (Except.ok fr, s1, tr)) : PostAlloc s s1 fr :=
  allocBufLoop_post (2 * s.numBufs + 1) s 0 [] fr s1 tr h hrun

/-- Registering a freshly allocated frame (insert the key, `Set` the
descriptor) restores the full invariant. -/
theorem bufInv_insert_set {s s1 : BufState} {fr : FrameId} {f : FileId}
    {p : PageId} {pg : Page}
    (hInv : BufInv s) (hpost : PostAlloc s s1 fr)
    (habs : htLookup s.hashTable f p = none) :
    BufInv { s1 with
      bufPool := s1.bufPool.set fr pg,
      hashTable := htInsert s1.hashTable f p fr,
      bufDescTable := s1.bufDescTable.set fr ((descAt s1 fr).Set f p) } := by
  obtain ⟨h0, hlen, hplen, hch, hent, hfrm, hdist⟩ := hInv
  have h0' : 0 < s1.numBufs := by rw [hpost.numBufs_eq]; exact h0
  have hlen1 : s1.bufDescTable.length = s1.numBufs := by
    rw [hpost.len_eq, hpost.numBufs_eq, hlen]
  have hfrlen : fr < s1.bufDescTable.length := by
    rw [hlen1]; exact hpost.fr_lt
  have habs1 : htLookup s1.hashTable f p = none := hpost.absent f p habs
  have hatfr : descAt { s1 with
      bufPool := s1.bufPool.set fr pg,
      hashTable := htInsert s1.hashTable f p fr,
      bufDescTable := s1.bufDescTable.set fr ((descAt s1 fr).Set f p) } fr =
      (descAt s1 fr).Set f p := by
    simp only [descAt_mk]
    exact getD_set_self _ _ _ hfrlen
  have hatne : ∀ j, j ≠ fr → descAt { s1 with
      bufPool := s1.bufPool.set fr pg,
      hashTable := htInsert s1.hashTable f p fr,
      bufDescTable := s1.bufDescTable.set fr ((descAt s1 fr).Set f p) } j =
      descAt s1 j := by
    intro j hj
    simp only [descAt_mk]
    exact getD_set_ne _ _ hj
  refine ⟨h0', by simp [hlen1], ?_, ?_, ?_, ?_, ?_⟩
  · simp only [bufPool_mk, numBufs_mk, List.length_set]
    rw [hpost.pool_eq, hplen, hpost.numBufs_eq]
  · simp only [clockHand_mk, numBufs_mk]
    exact hpost.hand_lt
  · intro e he
    simp only [hashTable_mk, htInsert, List.mem_cons] at he
    rcases he with he | he
    · subst he
      refine ⟨hpost.fr_lt, ?_, ?_, ?_⟩
      · rw [hatfr]; simp [BufDesc.Set]
      · rw [hatfr]; simp [BufDesc.Set]
      · rw [hatfr]; simp [BufDesc.Set]
    · obtain ⟨q1, q2, q3, q4⟩ := hpost.entries e he
      have hne : e.2.2 ≠ fr := hpost.not_fr e he
      exact ⟨q1, by rw [hatne _ hne]; exact q2, by rw [hatne _ hne]; exact q3,
        by rw [hatne _ hne]; exact q4⟩
  · intro i hi
    simp only [numBufs_mk] at hi
    by_cases hif : i = fr
    · subst hif
      constructor
      · intro _
        rw [hatfr]
        refine ⟨by simp [BufDesc.Set], ?_⟩
        simp only [hashTable_mk, htInsert, BufDesc.Set]
        left
      · intro hvv
        rw [hatfr] at hvv
        simp [BufDesc.Set] at hvv
    · obtain ⟨q1, q2⟩ := hpost.frames i hi hif
      constructor
      · intro hvv
        rw [hatne _ hif] at hvv ⊢
        obtain ⟨qa, qb⟩ := q1 hvv
        refine ⟨qa, ?_⟩
        simp only [hashTable_mk, htInsert]
        exact List.mem_cons_of_mem _ qb
      · intro hvv
        rw [hatne _ hif] at hvv ⊢
        exact q2 hvv
  · show entriesDistinct ((f, p, fr) :: s1.hashTable)
    refine List.Pairwise.cons ?_ hpost.distinct
    intro e he
    constructor
    · intro hcon
      have := htLookup_eq_none_iff.mp habs1 e he
      exact this ⟨hcon.1.symm, hcon.2.symm⟩
    · intro hcon
      exact hpost.not_fr e he hcon.symm

theorem bufInv_readPage {rf : FileId → PageId → Nat} {s : BufState} {f : FileId}
    {p : PageId} {fr : FrameId} {s' : BufState} {tr : List FileOp}
    (h : BufInv s)
    (hrun : readPage rf s f p = some (Except.ok fr, s', tr)) : BufInv s' := by
  unfold readPage at hrun
  rcases hlk : htLookup s.hashTable f p with _ | frame
  · rw [hlk] at hrun
    dsimp only at hrun
    rcases halloc : allocBuf s with _ | ⟨res, s1, tr1⟩
    · rw [halloc] at hrun
      simp at hrun
    · rw [halloc] at hrun
      rcases res with e | fr1
      · dsimp only at hrun
        simp at hrun
      · dsimp only at hrun
        simp only [Option.some.injEq, Prod.mk.injEq, Except.ok.injEq] at hrun
        obtain ⟨hfr, hs', htr⟩ := hrun
        subst hfr
        have hpost := allocBuf_post h halloc
        have hfin := @bufInv_insert_set s s1 fr1 f p ⟨p, rf f p⟩ h hpost hlk
        rw [← hs']
        exact hfin
  · rw [hlk] at hrun
    dsimp only at hrun
    simp only [Option.some.injEq, Prod.mk.injEq, Except.ok.injEq] at hrun
    obtain ⟨hfr, hs', htr⟩ := hrun
    subst hfr
    have hm := htLookup_mem hlk
    have heOk := h.2.2.2.2.1 _ hm
    have hlt : frame < s.numBufs := heOk.1
    have hvalid : (descAt s frame).valid = true := heOk.2.1
    rw [← hs']
    exact bufInv_update_core h hlt rfl rfl rfl
      (fun hvv => by rw [hvalid] at hvv; exact absurd hvv (by simp))

theorem bufInv_allocPage {s : BufState} {f : FileId} {np : Page} {pn : PageId}
    {fr : FrameId} {s' : BufState} {tr : List FileOp}
    (h : BufInv s)
    (habs : htLookup s.hashTable f np.page_number = none)
    (hrun : allocPage s f np = some (Except.ok (pn, fr), s', tr)) : BufInv s' := by
  unfold allocPage at hrun
  rcases halloc : allocBuf s with _ | ⟨res, s1, tr1⟩
  · rw [halloc] at hrun
    simp at hrun
  · rw [halloc] at hrun
    rcases res with e | fr1
    · dsimp only at hrun
      simp at hrun
    · dsimp only at hrun
      simp only [Option.some.injEq, Prod.mk.injEq, Except.ok.injEq] at hrun
      obtain ⟨⟨hpn, hfr⟩, hs', htr⟩ := hrun
      subst hfr
      have hpost := allocBuf_post h halloc
      have hfin := @bufInv_insert_set s s1 fr1 f np.page_number np h hpost habs
      rw [← hs']
      exact hfin

theorem bufInv_unPinPage {s : BufState} {f : FileId} {p : PageId} {b : Bool}
    {s' : BufState} (h : BufInv s)
    (hrun : unPinPage s f p b = (Except.ok (), s')) : BufInv s' := by
  unfold unPinPage at hrun
  rcases hlk : htLookup s.hashTable f p with _ | frame
  · rw [hlk] at hrun
    dsimp only at hrun
    simp only [Prod.mk.injEq] at hrun
    rw [← hrun.2]
    exact h
  · rw [hlk] at hrun
    dsimp only at hrun
    by_cases hpc : 0 < (descAt s frame).pinCnt
    · rw [if_pos hpc] at hrun
      simp only [Prod.mk.injEq] at hrun
      have hm := htLookup_mem hlk
      have heOk := h.2.2.2.2.1 _ hm
      have hlt : frame < s.numBufs := heOk.1
      have hvalid : (descAt s frame).valid = true := heOk.2.1
      rw [← hrun.2]
      exact bufInv_update_core h hlt rfl rfl rfl
        (fun hvv => by rw [hvalid] at hvv; exact absurd hvv (by simp))
    · rw [if_neg hpc] at hrun
      simp at hrun

theorem bufInv_disposePage {s : BufState} {f : FileId} {p : PageId}
    {s' : BufState} {tr : List FileOp} (h : BufInv s)
    (hrun : disposePage s f p = (Except.ok (), s', tr)) : BufInv s' := by
  unfold disposePage at hrun
  rcases hlk : htLookup s.hashTable f p with _ | frame
  · rw [hlk] at hrun
    dsimp only at hrun
    simp only [Prod.mk.injEq] at hrun
    rw [← hrun.2.1]
    exact h
  · rw [hlk] at hrun
    dsimp only at hrun
    have hm := htLookup_mem hlk
    obtain ⟨ht2, hrem, hsub, hmemc⟩ := htRemove_of_mem h.2.2.2.2.2.2 hm
    rw [hrem] at hrun
    dsimp only at hrun
    simp only [Prod.mk.injEq] at hrun
    rw [← hrun.2.1]
    exact bufInv_remove_clear h hm hrem

/-- One unfolding of the `flushFile` loop. -/
theorem flushLoop_succ (file : FileId) (rem fi : Nat) (s : BufState)
    (tr : List FileOp) :
    flushLoop file (rem + 1) fi s tr =
      (let d := descAt s fi
       if d.file = some file then
         if d.valid = false then
           (Except.error (BufError.BadBuffer fi d.dirty d.valid d.refbit), s, tr)
         else if 0 < d.pinCnt then
           (Except.error (BufError.PagePinned file d.pageNo fi), s, tr)
         else
           let s1 := if d.dirty then setDesc s fi { d with dirty := false } else s
           let tr1 := if d.dirty then tr ++ [FileOp.writePage d.file (poolAt s fi)]
                      else tr
           match htRemove s1.hashTable file d.pageNo with
           | none => (Except.error BufError.HashNotFound, s1, tr1)
           | some ht =>
               flushLoop file rem (fi + 1)
                 { s1 with hashTable := ht,
                           bufDescTable := s1.bufDescTable.set fi ((descAt s1 fi).Clear) }
                 tr1
       else flushLoop file rem (fi + 1) s tr) := rfl

theorem flushLoop_ok_inv :
    ∀ (rem : Nat) (file : FileId) (fi : Nat) (s : BufState) (tr : List FileOp)
      (s' : BufState) (tr' : List FileOp),
      BufInv s →
      flushLoop file rem fi s tr = (Except.ok (), s', tr') →
      BufInv s' := by
  intro rem
  induction rem with
  | zero =>
      intro file fi s tr s' tr' h hrun
      simp only [flushLoop, Prod.mk.injEq] at hrun
      rw [← hrun.2.1]
      exact h
  | succ rem ih =>
      intro file fi s tr s' tr' h hrun
      rw [flushLoop_succ] at hrun
      dsimp only at hrun
      set d := descAt s fi with hd
      by_cases hf : d.file = some file
      · rw [if_pos hf] at hrun
        by_cases hv : d.valid = false
        · rw [if_pos hv] at hrun
          simp at hrun
        · rw [if_neg hv] at hrun
          by_cases hp : 0 < d.pinCnt
          · rw [if_pos hp] at hrun
            simp at hrun
          · rw [if_neg hp] at hrun
            have hfi_len : fi < s.bufDescTable.length := by
              by_contra hcon
              push_neg at hcon
              have hdef : d = default := by
                rw [hd, descAt]
                exact getD_of_length_le _ hcon
              rw [hdef] at hf
              exact Option.noConfusion hf
            have hfi : fi < s.numBufs := by rw [← h.2.1]; exact hfi_len
            have hvalid : d.valid = true := by revert hv; cases d.valid <;> simp
            have hfo := h.2.2.2.2.2.1 fi (List.mem_range.mpr hfi)
            have hmem2 := (hfo.1 (by rw [← hd]; exact hvalid)).2
            have hmem : (file, d.pageNo, fi) ∈ s.hashTable := by
              rw [← hd] at hmem2
              rw [hf] at hmem2
              simpa using hmem2
            obtain ⟨ht2, hrem, hsub, hmemc⟩ :=
              htRemove_of_mem h.2.2.2.2.2.2 hmem
            by_cases hdt : d.dirty = true
            · rw [if_pos hdt, if_pos hdt] at hrun
              set d1 : BufDesc := { d with dirty := false } with hd1
              set s1 := setDesc s fi d1 with hs1
              have hInv1 : BufInv s1 := by
                rw [hs1]
                exact bufInv_update_core h hfi (by rw [← hd]) (by rw [← hd])
                  (by rw [← hd]) (fun _ => by rw [← hd])
              have hs1ht : s1.hashTable = s.hashTable := by rw [hs1]; simp
              have hmem1 : (file, d.pageNo, fi) ∈ s1.hashTable := by
                rw [hs1ht]; exact hmem
              have hrem1 : htRemove s1.hashTable file d.pageNo = some ht2 := by
                rw [hs1ht]; exact hrem
              rw [hrem1] at hrun
              dsimp only at hrun
              have hInv2 := bufInv_remove_clear hInv1 hmem1 hrem1
              exact ih file (fi + 1) _ _ s' tr' hInv2 hrun
            · rw [if_neg hdt, if_neg hdt] at hrun
              rw [hrem] at hrun
              dsimp only at hrun
              have hInv2 := bufInv_remove_clear h hmem hrem
              exact ih file (fi + 1) _ _ s' tr' hInv2 hrun
      · rw [if_neg hf] at hrun
        exact ih file (fi + 1) s tr s' tr' h hrun

theorem bufInv_flushFile {s : BufState} {f : FileId} {s' : BufState}
    {tr : List FileOp} (h : BufInv s)
    (hrun : flushFile s f = (Except.ok (), s', tr)) : BufInv s' :=
  flushLoop_ok_inv s.numBufs f 0 s [] s' tr h hrun

/-! ### Reachable states -/

/-- States reachable through public operations that return normally, from a
freshly constructed pool with at least one frame.  For `allocPage`, the
oracle page handed back by `File::allocatePage` carries a page number not
currently resident for that file — freshness is the File collaborator's
contract (it returns a page that did not previously exist in the file, and a
page of the file can only be resident while it exists in the file). -/
inductive Reachable : BufState → Prop where
  | init (n : Nat) (h : 0 < n) : Reachable (initState n)
  | read {s s1 : BufState} {rf : FileId → PageId → Nat} {f : FileId}
      {p : PageId} {fr : FrameId} {tr : List FileOp} (hs : Reachable s)
      (h : readPage rf s f p = some (Except.ok fr, s1, tr)) : Reachable s1
  | alloc {s s1 : BufState} {f : FileId} {np : Page} {pn : PageId}
      {fr : FrameId} {tr : List FileOp} (hs : Reachable s)
      (hfresh : htLookup s.hashTable f np.page_number = none)
      (h : allocPage s f np = some (Except.ok (pn, fr), s1, tr)) : Reachable s1
  | unpin {s s1 : BufState} {f : FileId} {p : PageId} {b : Bool}
      (hs : Reachable s)
      (h : unPinPage s f p b = (Except.ok (), s1)) : Reachable s1
  | flush {s s1 : BufState} {f : FileId} {tr : List FileOp} (hs : Reachable s)
      (h : flushFile s f = (Except.ok (), s1, tr)) : Reachable s1
  | dispose {s s1 : BufState} {f : FileId} {p : PageId} {tr : List FileOp}
      (hs : Reachable s)
      (h : disposePage s f p = (Except.ok (), s1, tr)) : Reachable s1

/-- Every reachable state satisfies the full invariant. -/
theorem reachable_bufInv {s : BufState} (h : Reachable s) : BufInv s := by
  induction h with
  | init n hn => exact bufInv_initState hn
  | read _ h ih => exact bufInv_readPage ih h
  | alloc _ hfresh h ih => exact bufInv_allocPage ih hfresh h
  | unpin _ h ih => exact bufInv_unPinPage ih h
  | flush _ h ih => exact bufInv_flushFile ih h
  | dispose _ h ih => exact bufInv_disposePage ih h

/-- Claim C2: in every reachable buffer-manager state (i.e. after every
public operation that returns normally), a frame descriptor is valid iff the
page identity index has an entry mapping some (file, pageNo) to that frame,
and that entry's key equals the frame's own `file` and `pageNo` fields. -/
theorem claim_C2_invariant {s : BufState} (h : Reachable s) :
    ∀ i, i < s.numBufs →
      ((descAt s i).valid = true ↔
        ∃ f p, (f, p, i) ∈ s.hashTable ∧
          (descAt s i).file = some f ∧ (descAt s i).pageNo = p) := by
  have hInv := reachable_bufInv h
  intro i hi
  constructor
  · intro hv
    obtain ⟨hfl, hmem⟩ := (hInv.2.2.2.2.2.1 i (List.mem_range.mpr hi)).1 hv
    exact ⟨(descAt s i).file.getD 0, (descAt s i).pageNo, hmem, hfl, rfl⟩
  · rintro ⟨f, p, hmem, _, _⟩
    exact (hInv.2.2.2.2.1 _ hmem).2.1

/-- Oracle for page contents used in concrete runs. -/
def rfW : FileId → PageId → Nat := fun f p => f * 100 + p

/-- The state reached from `initState 2` by `readPage` of page 5 of file 9. -/
def sW : BufState :=
  { numBufs := 2,
    bufDescTable := [⟨some 9, 5, 0, 1, false, true, true⟩,
                     ⟨none, 0, 1, 0, false, false, false⟩],
    bufPool := [⟨5, 905⟩, ⟨0, 0⟩],
    hashTable := [(9, 5, 0)],
    clockHand := 0 }

theorem claim_C2_invariant_witness :
    (descAt sW 0).valid = true ↔
      ∃ f p, (f, p, 0) ∈ sW.hashTable ∧
        (descAt sW 0).file = some f ∧ (descAt sW 0).pageNo = p :=
  claim_C2_invariant
    (Reachable.read (Reachable.init 2 (by decide))
      (show readPage rfW (initState 2) 9 5 =
        some (Except.ok 0, sW, [FileOp.readPage 9 5]) by rfl))
    0 (by decide)

instance {ε α : Type} [DecidableEq ε] [DecidableEq α] :
    DecidableEq (Except ε α) := fun a b =>
  match a, b with
  | Except.ok x, Except.ok y =>
      if h : x = y then isTrue (by rw [h])
      else isFalse (fun hc => h (by injection hc))
  | Except.error x, Except.error y =>
      if h : x = y then isTrue (by rw [h])
      else isFalse (fun hc => h (by injection hc))
  | Except.ok _, Except.error _ => isFalse (fun hc => Except.noConfusion hc)
  | Except.error _, Except.ok _ => isFalse (fun hc => Except.noConfusion hc)

instance (s : BufState) (e : FileId × PageId × FrameId) :
    Decidable (entryOk s e) := by
  unfold entryOk
  infer_instance

instance (s : BufState) (i : Nat) : Decidable (frameOk s i) := by
  unfold frameOk
  infer_instance

instance (ht : HashTbl) : Decidable (entriesDistinct ht) := by
  unfold entriesDistinct
  infer_instance

instance (s : BufState) : Decidable (BufInv s) := by
  unfold BufInv
  infer_instance

/-- Under key-distinctness, an entry sharing the key of a present entry is
that entry. -/
theorem entry_key_unique {ht : HashTbl} {f : FileId} {p : PageId} {fr : FrameId}
    (hd : entriesDistinct ht) (hm : (f, p, fr) ∈ ht)
    {e : FileId × PageId × FrameId} (he : e ∈ ht) (h1 : e.1 = f)
    (h2 : e.2.1 = p) : e = (f, p, fr) := by
  by_contra hne
  have hsym : Symmetric (fun a b : FileId × PageId × FrameId =>
      ¬(a.1 = b.1 ∧ a.2.1 = b.2.1) ∧ a.2.2 ≠ b.2.2) := by
    intro a b hab
    exact ⟨fun hc => hab.1 ⟨hc.1.symm, hc.2.symm⟩, fun hc => hab.2 hc.symm⟩
  have hrel := List.Pairwise.forall hsym hd he hm hne
  exact hrel.1 ⟨h1, h2⟩

/-- Claim C6: `unPinPage` satisfies exactly this case analysis — an absent
key is a silent no-op, a resident page with a positive pin count has its pin
count decremented by one and its dirty flag OR-ed with the argument (a false
argument never clears a set dirty flag), and a resident page with pin count
zero raises `PageNotPinned` leaving the state unchanged.  `pinCnt` is a `Nat`
and is decremented only when positive, so it never goes negative. -/
theorem claim_C6_unPinPage (s : BufState) (f : FileId) (p : PageId) (b : Bool) :
    (htLookup s.hashTable f p = none → unPinPage s f p b = (Except.ok (), s)) ∧
    (∀ fr, htLookup s.hashTable f p = some fr →
      0 < (descAt s fr).pinCnt →
        (unPinPage s f p b).1 = Except.ok () ∧
        (descAt (unPinPage s f p b).2 fr).pinCnt = (descAt s fr).pinCnt - 1 ∧
        (descAt (unPinPage s f p b).2 fr).dirty = (b || (descAt s fr).dirty) ∧
        (∀ j, j ≠ fr → descAt (unPinPage s f p b).2 j = descAt s j) ∧
        (unPinPage s f p b).2.hashTable = s.hashTable) ∧
    (∀ fr, htLookup s.hashTable f p = some fr →
      (descAt s fr).pinCnt = 0 →
        unPinPage s f p b =
          (Except.error (BufError.PageNotPinned (descAt s fr).file
            (descAt s fr).pageNo fr), s)) := by
  refine ⟨?_, ?_, ?_⟩
  · intro hlk
    unfold unPinPage
    rw [hlk]
  · intro fr hlk hpc
    have hfrlen : fr < s.bufDescTable.length := by
      by_contra hcon
      push_neg at hcon
      have hdef : descAt s fr = default := by
        rw [descAt]; exact getD_of_length_le _ hcon
      rw [hdef] at hpc
      exact absurd hpc (by decide)
    unfold unPinPage
    rw [hlk]
    dsimp only
    rw [if_pos hpc]
    refine ⟨rfl, ?_, ?_, ?_, rfl⟩
    · show (descAt (setDesc s fr _) fr).pinCnt = _
      rw [descAt_setDesc_self _ _ _ hfrlen]
    · show (descAt (setDesc s fr _) fr).dirty = _
      rw [descAt_setDesc_self _ _ _ hfrlen]
      cases b <;> simp
    · intro j hj
      show descAt (setDesc s fr _) j = descAt s j
      exact descAt_setDesc_ne _ _ hj
  · intro fr hlk hpc
    unfold unPinPage
    rw [hlk]
    dsimp only
    rw [if_neg (by rw [hpc]; exact Nat.lt_irrefl 0)]

theorem claim_C6_unPinPage_witness :
    (unPinPage sW 9 5 false).1 = Except.ok () ∧
    (descAt (unPinPage sW 9 5 false).2 0).pinCnt = (descAt sW 0).pinCnt - 1 ∧
    (descAt (unPinPage sW 9 5 false).2 0).dirty = (false || (descAt sW 0).dirty) :=
  ⟨((claim_C6_unPinPage sW 9 5 false).2.1 0 rfl (by decide)).1,
   ((claim_C6_unPinPage sW 9 5 false).2.1 0 rfl (by decide)).2.1,
   ((claim_C6_unPinPage sW 9 5 false).2.1 0 rfl (by decide)).2.2.1⟩

/-- Claim C8: `disposePage` performs no pin check: on a resident page, even
one whose frame is currently pinned, it removes the index entry, clears the
frame descriptor, and delegates deletion to the File collaborator without
raising any error. -/
theorem claim_C8_disposePage {s : BufState} {f : FileId} {p : PageId}
    {fr : FrameId} (hInv : BufInv s)
    (hlk : htLookup s.hashTable f p = some fr)
    (hpin : 0 < (descAt s fr).pinCnt) :
    (disposePage s f p).1 = Except.ok () ∧
    (disposePage s f p).2.2 = [FileOp.deletePage f p] ∧
    htLookup (disposePage s f p).2.1.hashTable f p = none ∧
    descAt (disposePage s f p).2.1 fr = (descAt s fr).Clear := by
  have hm := htLookup_mem hlk
  have hdist := hInv.2.2.2.2.2.2
  obtain ⟨ht2, hrem, hsub, hmemc⟩ := htRemove_of_mem hdist hm
  have hfrlen : fr < s.bufDescTable.length := by
    have hq : fr < s.numBufs := (hInv.2.2.2.2.1 _ hm).1
    rw [hInv.2.1]
    exact hq
  unfold disposePage
  rw [hlk]
  dsimp only
  rw [hrem]
  dsimp only
  refine ⟨rfl, rfl, ?_, ?_⟩
  · rw [htLookup_eq_none_iff]
    intro e he hkey
    have hee : e ∈ s.hashTable ∧ e ≠ (f, p, fr) := (hmemc e).mp he
    exact hee.2 (entry_key_unique hdist hm hee.1 hkey.1 hkey.2)
  · simp only [descAt_mk]
    exact getD_set_self _ _ _ hfrlen

theorem claim_C8_disposePage_witness :
    (disposePage sW 9 5).1 = Except.ok () ∧
    (disposePage sW 9 5).2.2 = [FileOp.deletePage 9 5] ∧
    htLookup (disposePage sW 9 5).2.1.hashTable 9 5 = none ∧
    descAt (disposePage sW 9 5).2.1 0 = (descAt sW 0).Clear :=
  claim_C8_disposePage (by decide) rfl (by decide)

/-- Claim C10: `disposePage` never invokes the File collaborator's
write-back.  Even when the resident frame is dirty, the only File operation
it performs is `deletePage`; the pool contents, every other frame descriptor
and every other index entry are unchanged (the in-memory contents are simply
discarded). -/
theorem claim_C10_disposePage {s : BufState} {f : FileId} {p : PageId}
    {fr : FrameId} (hInv : BufInv s)
    (hlk : htLookup s.hashTable f p = some fr)
    (hdirty : (descAt s fr).dirty = true) :
    (disposePage s f p).2.2 = [FileOp.deletePage f p] ∧
    (∀ fo pg, FileOp.writePage fo pg ∉ (disposePage s f p).2.2) ∧
    (disposePage s f p).2.1.bufPool = s.bufPool ∧
    (∀ j, j ≠ fr → descAt (disposePage s f p).2.1 j = descAt s j) ∧
    (∀ e ∈ s.hashTable, e ≠ (f, p, fr) →
      e ∈ (disposePage s f p).2.1.hashTable) := by
  have hm := htLookup_mem hlk
  have hdist := hInv.2.2.2.2.2.2
  obtain ⟨ht2, hrem, hsub, hmemc⟩ := htRemove_of_mem hdist hm
  unfold disposePage
  rw [hlk]
  dsimp only
  rw [hrem]
  dsimp only
  refine ⟨rfl, ?_, rfl, ?_, ?_⟩
  · intro fo pg hmem
    rw [List.mem_singleton] at hmem
    exact FileOp.noConfusion hmem
  · intro j hj
    simp only [descAt_mk]
    exact getD_set_ne _ _ hj
  · intro e he hne
    exact (hmemc e).mpr ⟨he, hne⟩

/-- `sW` with its single resident frame marked dirty. -/
def sW2 : BufState :=
  { numBufs := 2,
    bufDescTable := [⟨some 9, 5, 0, 1, true, true, true⟩,
                     ⟨none, 0, 1, 0, false, false, false⟩],
    bufPool := [⟨5, 905⟩, ⟨0, 0⟩],
    hashTable := [(9, 5, 0)],
    clockHand := 0 }

theorem claim_C10_disposePage_witness :
    (disposePage sW2 9 5).2.2 = [FileOp.deletePage 9 5] ∧
    (disposePage sW2 9 5).2.1.bufPool = sW2.bufPool :=
  ⟨(@claim_C10_disposePage sW2 9 5 0 (by decide) rfl (by decide)).1,
   (@claim_C10_disposePage sW2 9 5 0 (by decide) rfl (by decide)).2.2.1⟩

/-- What one normally-returning `readPage` guarantees: afterwards the key is
resident at the returned frame, the frame index is in range, and that
frame's pin count went up by exactly one. -/
theorem readPage_spec {rf : FileId → PageId → Nat} {s : BufState} {f : FileId}
    {p : PageId} {fr : FrameId} {s1 : BufState} {tr : List FileOp}
    (hInv : BufInv s)
    (h : readPage rf s f p = some (Except.ok fr, s1, tr)) :
    htLookup s1.hashTable f p = some fr ∧
    fr < s1.bufDescTable.length ∧
    (descAt s1 fr).pinCnt = (descAt s fr).pinCnt + 1 := by
  unfold readPage at h
  rcases hlk : htLookup s.hashTable f p with _ | frame
  · rw [hlk] at h
    dsimp only at h
    rcases halloc : allocBuf s with _ | ⟨res, sa, tra⟩
    · rw [halloc] at h
      simp at h
    · rw [halloc] at h
      rcases res with e | fra
      · dsimp only at h
        simp at h
      · dsimp only at h
        simp only [Option.some.injEq, Prod.mk.injEq, Except.ok.injEq] at h
        obtain ⟨hfr, hs1, htr⟩ := h
        subst hfr
        have hpost := allocBuf_post hInv halloc
        have hlen1 : fra < sa.bufDescTable.length := by
          rw [hpost.len_eq, hInv.2.1, ← hpost.numBufs_eq]
          exact hpost.fr_lt
        refine ⟨?_, ?_, ?_⟩
        · rw [← hs1]
          simp [htLookup, htInsert]
        · rw [← hs1]
          simpa using hlen1
        · rw [← hs1]
          simp only [descAt_mk]
          rw [getD_set_self _ _ _ hlen1]
          have hq : (descAt s fra).pinCnt = 0 := by
            rw [← hpost.pin_eq fra]
            exact hpost.pin_fr
          rw [hq]
          simp [BufDesc.Set]
  · rw [hlk] at h
    dsimp only at h
    simp only [Option.some.injEq, Prod.mk.injEq, Except.ok.injEq] at h
    obtain ⟨hfr, hs1, htr⟩ := h
    subst hfr
    have hm := htLookup_mem hlk
    have heOk := hInv.2.2.2.2.1 _ hm
    have hlt : frame < s.numBufs := heOk.1
    have hlen1 : frame < s.bufDescTable.length := by rw [hInv.2.1]; exact hlt
    refine ⟨?_, ?_, ?_⟩
    · rw [← hs1]
      simpa using hlk
    · rw [← hs1]
      simpa using hlen1
    · rw [← hs1]
      rw [descAt_setDesc_self _ _ _ hlen1]

/-- Claim C7: reading the same (file, pageNo) twice without an intervening
unpin (in any invariant-satisfying state) returns a handle to the same frame
both times, and each call raises that frame's pin count by exactly one; the
second call is an index hit that also leaves the reference bit set. -/
theorem claim_C7_readPage_twice {rf rf2 : FileId → PageId → Nat}
    {s s1 s2 : BufState} {f : FileId} {p : PageId} {fr1 fr2 : FrameId}
    {tr1 tr2 : List FileOp}
    (hInv : BufInv s)
    (h1 : readPage rf s f p = some (Except.ok fr1, s1, tr1))
    (h2 : readPage rf2 s1 f p = some (Except.ok fr2, s2, tr2)) :
    fr2 = fr1 ∧
    (descAt s1 fr1).pinCnt = (descAt s fr1).pinCnt + 1 ∧
    (descAt s2 fr1).pinCnt = (descAt s1 fr1).pinCnt + 1 ∧
    (descAt s2 fr1).refbit = true := by
  obtain ⟨hlk1, hlen1, hpin1⟩ := readPage_spec hInv h1
  unfold readPage at h2
  rw [hlk1] at h2
  dsimp only at h2
  simp only [Option.some.injEq, Prod.mk.injEq, Except.ok.injEq] at h2
  obtain ⟨hfr, hs2, htr⟩ := h2
  refine ⟨hfr.symm, hpin1, ?_, ?_⟩
  · rw [← hs2]
    rw [descAt_setDesc_self _ _ _ hlen1]
  · rw [← hs2]
    rw [descAt_setDesc_self _ _ _ hlen1]

/-- The state reached from `sW` by a second `readPage` of page 5 of file 9. -/
def sX : BufState :=
  { numBufs := 2,
    bufDescTable := [⟨some 9, 5, 0, 2, false, true, true⟩,
                     ⟨none, 0, 1, 0, false, false, false⟩],
    bufPool := [⟨5, 905⟩, ⟨0, 0⟩],
    hashTable := [(9, 5, 0)],
    clockHand := 0 }

theorem claim_C7_readPage_twice_witness :
    (0 : FrameId) = 0 ∧
    (descAt sW 0).pinCnt = (descAt (initState 2) 0).pinCnt + 1 ∧
    (descAt sX 0).pinCnt = (descAt sW 0).pinCnt + 1 ∧
    (descAt sX 0).refbit = true :=
  claim_C7_readPage_twice (by decide)
    (show readPage rfW (initState 2) 9 5 =
      some (Except.ok 0, sW, [FileOp.readPage 9 5]) by rfl)
    (show readPage rfW sW 9 5 = some (Except.ok 0, sX, []) by rfl)

/-- Claim C5: in a pool whose frames are all valid, unpinned and have a
clear reference bit, `allocBuf` hands back exactly the frame the clock hand
reaches first ((clockHand + 1) mod numBufs); if that frame was dirty, its
contents are written back through the File collaborator and its dirty flag
is cleared before the frame is handed out for reassignment. -/
theorem claim_C5_eviction {s : BufState}
    (h0 : 0 < s.numBufs)
    (hlen : s.bufDescTable.length = s.numBufs)
    (hch : s.clockHand < s.numBufs)
    (hall : ∀ i, i < s.numBufs → (descAt s i).valid = true ∧
      (descAt s i).pinCnt = 0 ∧ (descAt s i).refbit = false) :
    ∃ s1, allocBuf s =
      some (Except.ok ((s.clockHand + 1) % s.numBufs), s1,
        if (descAt s ((s.clockHand + 1) % s.numBufs)).dirty = true then
          [FileOp.writePage (descAt s ((s.clockHand + 1) % s.numBufs)).file
            (poolAt s ((s.clockHand + 1) % s.numBufs))]
        else []) ∧
      (descAt s1 ((s.clockHand + 1) % s.numBufs)).dirty = false := by
  have hv : (s.clockHand + 1) % s.numBufs < s.numBufs := Nat.mod_lt _ h0
  have hhand : (advanceClock s).clockHand = (s.clockHand + 1) % s.numBufs :=
    advanceClock_eq_mod s h0 hch
  obtain ⟨hvalid, hpin, href⟩ := hall _ hv
  have hvlen : (s.clockHand + 1) % s.numBufs < s.bufDescTable.length := by omega
  have hvlen' : (s.clockHand + 1) % s.numBufs <
      (advanceClock s).bufDescTable.length := hvlen
  unfold allocBuf
  rw [allocBufLoop_succ]
  dsimp only
  rw [hhand]
  simp only [descAt_advanceClock, poolAt_advanceClock]
  rw [if_neg (by simp [hvalid])]
  rw [if_neg (by simp [href])]
  rw [if_neg (by simp [hpin])]
  by_cases hdirty : (descAt s ((s.clockHand + 1) % s.numBufs)).dirty = true
  · rw [if_pos hdirty, if_pos hdirty, if_pos hdirty]
    rcases hfl : (descAt s ((s.clockHand + 1) % s.numBufs)).file with _ | f0
    · dsimp only
      refine ⟨_, rfl, ?_⟩
      rw [descAt_setDesc_self _ _ _ hvlen']
    · dsimp only
      simp only [setDesc_hashTable, advanceClock_hashTable]
      rcases hrem : htRemove s.hashTable f0
          (descAt s ((s.clockHand + 1) % s.numBufs)).pageNo with _ | ht2
      · dsimp only
        refine ⟨_, rfl, ?_⟩
        rw [descAt_setDesc_self _ _ _ hvlen']
      · dsimp only
        refine ⟨_, rfl, ?_⟩
        simp only [descAt_mk, setDesc_bufDescTable, advanceClock_bufDescTable]
        rw [getD_set_self _ _ _ hvlen]
  · rw [if_neg hdirty, if_neg hdirty, if_neg hdirty]
    have hdf : (descAt s ((s.clockHand + 1) % s.numBufs)).dirty = false := by
      revert hdirty
      cases (descAt s ((s.clockHand + 1) % s.numBufs)).dirty <;> simp
    rcases hfl : (descAt s ((s.clockHand + 1) % s.numBufs)).file with _ | f0
    · dsimp only
      exact ⟨_, rfl, hdf⟩
    · dsimp only
      simp only [advanceClock_hashTable]
      rcases hrem : htRemove s.hashTable f0
          (descAt s ((s.clockHand + 1) % s.numBufs)).pageNo with _ | ht2
      · dsimp only
        exact ⟨_, rfl, hdf⟩
      · dsimp only
        exact ⟨_, rfl, hdf⟩

/-- All-valid, all-unpinned, refbit-clear pool with a dirty page in frame 1;
the hand is at 0, so frame 1 is the next victim. -/
def sV : BufState :=
  { numBufs := 2,
    bufDescTable := [⟨some 3, 0, 0, 0, false, true, false⟩,
                     ⟨some 3, 1, 1, 0, true, true, false⟩],
    bufPool := [⟨0, 30⟩, ⟨1, 31⟩],
    hashTable := [(3, 0, 0), (3, 1, 1)],
    clockHand := 0 }

theorem claim_C5_eviction_witness :
    ∃ s1, allocBuf sV =
      some (Except.ok ((sV.clockHand + 1) % sV.numBufs), s1,
        if (descAt sV ((sV.clockHand + 1) % sV.numBufs)).dirty = true then
          [FileOp.writePage (descAt sV ((sV.clockHand + 1) % sV.numBufs)).file
            (poolAt sV ((sV.clockHand + 1) % sV.numBufs))]
        else []) ∧
      (descAt s1 ((sV.clockHand + 1) % sV.numBufs)).dirty = false :=
  @claim_C5_eviction sV (by decide) (by decide) (by decide) (by decide)

/-! ### The all-pinned / exhaustion analysis -/

/-- Two descriptors that agree on everything except possibly `refbit`. -/
def sameExceptRefbit (a b : BufDesc) : Prop :=
  a.file = b.file ∧ a.pageNo = b.pageNo ∧ a.frameNo = b.frameNo ∧
  a.pinCnt = b.pinCnt ∧ a.dirty = b.dirty ∧ a.valid = b.valid

theorem sameExceptRefbit_refl (a : BufDesc) : sameExceptRefbit a a :=
  ⟨rfl, rfl, rfl, rfl, rfl, rfl⟩

theorem sameExceptRefbit_trans {a b c : BufDesc}
    (h1 : sameExceptRefbit a b) (h2 : sameExceptRefbit b c) :
    sameExceptRefbit a c :=
  ⟨h1.1.trans h2.1, h1.2.1.trans h2.2.1, h1.2.2.1.trans h2.2.2.1,
   h1.2.2.2.1.trans h2.2.2.2.1, h1.2.2.2.2.1.trans h2.2.2.2.2.1,
   h1.2.2.2.2.2.trans h2.2.2.2.2.2⟩

/-- Number of frames whose reference bit is set. -/
def refbitCount (s : BufState) : Nat :=
  ((Finset.range s.numBufs).filter (fun i => (descAt s i).refbit = true)).card

theorem refbitCount_le (s : BufState) : refbitCount s ≤ s.numBufs := by
  unfold refbitCount
  calc ((Finset.range s.numBufs).filter _).card
      ≤ (Finset.range s.numBufs).card := Finset.card_filter_le _ _
    _ = s.numBufs := Finset.card_range _

/-- Clearing a set reference bit decreases `refbitCount` by one. -/
theorem refbitCount_clear {s : BufState} {i : Nat} {d' : BufDesc}
    (hi : i < s.numBufs) (hlen : s.bufDescTable.length = s.numBufs)
    (hr : (descAt s i).refbit = true) (hd' : d'.refbit = false) :
    refbitCount (setDesc s i d') = refbitCount s - 1 ∧ 0 < refbitCount s := by
  have hilen : i < s.bufDescTable.length := by omega
  have hmem : i ∈ (Finset.range s.numBufs).filter
      (fun j => (descAt s j).refbit = true) :=
    Finset.mem_filter.mpr ⟨Finset.mem_range.mpr hi, hr⟩
  have hset : (Finset.range (setDesc s i d').numBufs).filter
      (fun j => (descAt (setDesc s i d') j).refbit = true) =
      ((Finset.range s.numBufs).filter
        (fun j => (descAt s j).refbit = true)).erase i := by
    ext j
    simp only [Finset.mem_filter, Finset.mem_erase, Finset.mem_range,
      setDesc_numBufs]
    by_cases hji : j = i
    · subst hji
      rw [descAt_setDesc_self _ _ _ hilen, hd']
      simp
    · rw [descAt_setDesc_ne _ _ hji]
      constructor
      · intro hc
        exact ⟨hji, hc.1, hc.2⟩
      · intro hc
        exact ⟨hc.2.1, hc.2.2⟩
  constructor
  · unfold refbitCount
    rw [hset]
    exact Finset.card_erase_of_mem hmem
  · exact Finset.card_pos.mpr ⟨i, hmem⟩

/-- In an all-pinned pool, the `allocBuf` loop raises `BufferExceeded`; it
leaves the index, the pool contents and every descriptor field except
`refbit` unchanged, and emits no File operation. -/
theorem allocBufLoop_allPinned :
    ∀ (fuel : Nat) (s : BufState) (pinned : Nat) (tr : List FileOp),
      0 < s.numBufs →
      s.bufDescTable.length = s.numBufs →
      s.clockHand < s.numBufs →
      (∀ i, i < s.numBufs →
        (descAt s i).valid = true ∧ 0 < (descAt s i).pinCnt) →
      pinned < s.numBufs →
      s.numBufs - pinned + refbitCount s ≤ fuel →
      ∃ s', allocBufLoop fuel s pinned tr =
          some (Except.error BufError.BufferExceeded, s', tr) ∧
        s'.numBufs = s.numBufs ∧
        s'.bufDescTable.length = s.bufDescTable.length ∧
        s'.bufPool = s.bufPool ∧
        s'.hashTable = s.hashTable ∧
        (∀ i, sameExceptRefbit (descAt s' i) (descAt s i)) := by
  intro fuel
  induction fuel with
  | zero =>
      intro s pinned tr h0 hlen hch hallp hpn hfuel
      exfalso
      omega
  | succ fuel ih =>
      intro s pinned tr h0 hlen hch hallp hpn hfuel
      rw [allocBufLoop_succ]
      dsimp only
      set sa := advanceClock s with hsa
      set d := descAt sa sa.clockHand with hd
      have hcha : sa.clockHand < s.numBufs := by
        rw [hsa]; exact advanceClock_lt s h0
      have hdd : d = descAt s sa.clockHand := hd
      obtain ⟨hdv, hdp⟩ := hallp sa.clockHand hcha
      have hdv' : d.valid = true := by rw [hdd]; exact hdv
      have hdp' : 0 < d.pinCnt := by rw [hdd]; exact hdp
      rw [if_neg (by simp [hdv'])]
      by_cases href : d.refbit = true
      · rw [if_pos href]
        -- clear the reference bit and continue
        have href' : (descAt s sa.clockHand).refbit = true := by
          rw [← hdd]; exact href
        have hclen : sa.clockHand < sa.bufDescTable.length := by
          show sa.clockHand < s.bufDescTable.length
          omega
        have href2 : (descAt sa sa.clockHand).refbit = true := by
          rw [← hd]; exact href
        obtain ⟨hcnt, hpos⟩ :=
          @refbitCount_clear sa sa.clockHand { d with refbit := false }
            hcha hlen href2 rfl
        have hallp2 : ∀ i, i < (setDesc sa sa.clockHand
            { d with refbit := false }).numBufs →
            (descAt (setDesc sa sa.clockHand { d with refbit := false }) i).valid
              = true ∧
            0 < (descAt (setDesc sa sa.clockHand
              { d with refbit := false }) i).pinCnt := by
          intro i hi
          simp only [setDesc_numBufs] at hi
          by_cases hic : i = sa.clockHand
          · subst hic
            rw [descAt_setDesc_self _ _ _ hclen]
            exact ⟨hdv', hdp'⟩
          · rw [descAt_setDesc_ne _ _ hic]
            exact hallp i hi
        obtain ⟨s', hres, hq1, hq2, hq3, hq4, hq5⟩ :=
          ih (setDesc sa sa.clockHand { d with refbit := false }) pinned tr
            h0 (by simpa using hlen) (by simpa using hcha) hallp2 hpn
            (by
              have : refbitCount (setDesc sa sa.clockHand
                  { d with refbit := false }) = refbitCount s - 1 := hcnt
              have hpos2 : 0 < refbitCount s := hpos
              have hnb : (setDesc sa sa.clockHand
                  { d with refbit := false }).numBufs = s.numBufs := rfl
              omega)
        refine ⟨s', hres, by simpa using hq1, by simpa using hq2,
          by simpa using hq3, by simpa using hq4, ?_⟩
        intro i
        refine sameExceptRefbit_trans (hq5 i) ?_
        by_cases hic : i = sa.clockHand
        · subst hic
          rw [descAt_setDesc_self _ _ _ hclen, hdd]
          exact ⟨rfl, rfl, rfl, rfl, rfl, rfl⟩
        · rw [descAt_setDesc_ne _ _ hic]
          exact sameExceptRefbit_refl _
      · rw [if_neg href]
        rw [if_pos hdp']
        by_cases hpeq : pinned + 1 = s.numBufs
        · rw [if_pos (show pinned + 1 = sa.numBufs by simpa using hpeq)]
          exact ⟨sa, rfl, rfl, rfl, rfl, rfl,
            fun i => sameExceptRefbit_refl _⟩
        · rw [if_neg (show ¬pinned + 1 = sa.numBufs by simpa using hpeq)]
          have hlt : pinned + 1 < s.numBufs := by omega
          obtain ⟨s', hres, hq1, hq2, hq3, hq4, hq5⟩ :=
            ih sa (pinned + 1) tr h0 hlen hcha hallp hlt
              (by
                have hrc : refbitCount sa = refbitCount s := rfl
                have hnb2 : sa.numBufs = s.numBufs := rfl
                omega)
          exact ⟨s', hres, hq1, hq2, hq3, hq4, hq5⟩

/-- `allocBuf` on an all-pinned pool: `BufferExceeded`, empty trace, index
and pool unchanged, all descriptor fields except `refbit` unchanged. -/
theorem allocBuf_allPinned {s : BufState}
    (h0 : 0 < s.numBufs)
    (hlen : s.bufDescTable.length = s.numBufs)
    (hch : s.clockHand < s.numBufs)
    (hallp : ∀ i, i < s.numBufs →
      (descAt s i).valid = true ∧ 0 < (descAt s i).pinCnt) :
    ∃ s', allocBuf s = some (Except.error BufError.BufferExceeded, s', []) ∧
      s'.numBufs = s.numBufs ∧
      s'.bufDescTable.length = s.bufDescTable.length ∧
      s'.bufPool = s.bufPool ∧
      s'.hashTable = s.hashTable ∧
      (∀ i, sameExceptRefbit (descAt s' i) (descAt s i)) := by
  have hle := refbitCount_le s
  exact allocBufLoop_allPinned (2 * s.numBufs + 1) s 0 [] h0 hlen hch hallp h0
    (by omega)

/-- An all-pinned one-frame pool whose frame has its reference bit set. -/
def exC4 : BufState :=
  { numBufs := 1,
    bufDescTable := [⟨some 5, 3, 0, 1, false, true, true⟩],
    bufPool := [⟨3, 0⟩],
    hashTable := [(5, 3, 0)],
    clockHand := 0 }

/-- The state `allocBuf` leaves behind on `exC4`: the reference bit has been
cleared by the sweep. -/
def exC4' : BufState :=
  { numBufs := 1,
    bufDescTable := [⟨some 5, 3, 0, 1, false, true, false⟩],
    bufPool := [⟨3, 0⟩],
    hashTable := [(5, 3, 0)],
    clockHand := 0 }

/-- Claim C4 (counterexample): with every frame pinned, `allocBuf` does raise
`BufferExceeded`, but it does not leave every frame's state unchanged — the
sweep clears set reference bits before the failure, so the claim as stated is
false. -/
theorem claim_C4_counterexample :
    (∀ i, i < exC4.numBufs →
      (descAt exC4 i).valid = true ∧ 0 < (descAt exC4 i).pinCnt) ∧
    allocBuf exC4 = some (Except.error BufError.BufferExceeded, exC4', []) ∧
    exC4'.bufDescTable ≠ exC4.bufDescTable ∧
    (descAt exC4 0).refbit = true ∧ (descAt exC4' 0).refbit = false := by
  decide

/-- Claim C4 (amended): for every pool state in which all `numBufs` frames
are pinned, any allocation request raises `BufferExceeded` and leaves the
pool contents, the page identity index, and every frame's `valid`, `dirty`,
`pinCnt`, `file` and `pageNo` unchanged; the `refbit` flags of scanned
frames may however be cleared by the sweep (and the clock hand moves). -/
theorem claim_C4_amended {s : BufState}
    (h0 : 0 < s.numBufs)
    (hlen : s.bufDescTable.length = s.numBufs)
    (hch : s.clockHand < s.numBufs)
    (hallp : ∀ i, i < s.numBufs →
      (descAt s i).valid = true ∧ 0 < (descAt s i).pinCnt) :
    ∃ s', allocBuf s = some (Except.error BufError.BufferExceeded, s', []) ∧
      s'.bufPool = s.bufPool ∧
      s'.hashTable = s.hashTable ∧
      (∀ i, sameExceptRefbit (descAt s' i) (descAt s i)) := by
  obtain ⟨s', hres, _, _, hq3, hq4, hq5⟩ := allocBuf_allPinned h0 hlen hch hallp
  exact ⟨s', hres, hq3, hq4, hq5⟩

theorem claim_C4_amended_witness :
    ∃ s', allocBuf exC4 =
        some (Except.error BufError.BufferExceeded, s', []) ∧
      s'.bufPool = exC4.bufPool ∧
      s'.hashTable = exC4.hashTable ∧
      (∀ i, sameExceptRefbit (descAt s' i) (descAt exC4 i)) :=
  @claim_C4_amended exC4 (by decide) (by decide) (by decide) (by decide)

/-- Claim C9: `allocPage` asks the File collaborator for a new page before
acquiring a frame, so when every frame is pinned it raises `BufferExceeded`
with the `allocatePage` call already emitted in the trace, and the new page
is not registered in the index (nor is any page handle returned — the result
is the error, not a value). -/
theorem claim_C9_allocPage {s : BufState} (f : FileId) (np : Page)
    (h0 : 0 < s.numBufs)
    (hlen : s.bufDescTable.length = s.numBufs)
    (hch : s.clockHand < s.numBufs)
    (hallp : ∀ i, i < s.numBufs →
      (descAt s i).valid = true ∧ 0 < (descAt s i).pinCnt) :
    ∃ s', allocPage s f np =
        some (Except.error BufError.BufferExceeded, s',
          [FileOp.allocatePage f]) ∧
      s'.hashTable = s.hashTable ∧
      htLookup s'.hashTable f np.page_number =
        htLookup s.hashTable f np.page_number := by
  obtain ⟨s', hres, _, _, _, hq4, _⟩ := allocBuf_allPinned h0 hlen hch hallp
  unfold allocPage
  rw [hres]
  dsimp only
  exact ⟨s', rfl, hq4, by rw [hq4]⟩

theorem claim_C9_allocPage_witness :
    ∃ s', allocPage exC4 7 ⟨11, 0⟩ =
        some (Except.error BufError.BufferExceeded, s',
          [FileOp.allocatePage 7]) ∧
      s'.hashTable = exC4.hashTable ∧
      htLookup s'.hashTable 7 (11 : PageId) =
        htLookup exC4.hashTable 7 (11 : PageId) :=
  @claim_C9_allocPage exC4 7 ⟨11, 0⟩ (by decide) (by decide) (by decide)
    (by decide)

/-- Two frames: frame 0 is pinned, frame 1 is valid, unpinned, with its
reference bit set; the hand is at 1, so the sweep starts at frame 0. -/
def exC1 : BufState :=
  { numBufs := 2,
    bufDescTable := [⟨some 10, 0, 0, 1, false, true, false⟩,
                     ⟨some 10, 1, 1, 0, false, true, true⟩],
    bufPool := [⟨0, 0⟩, ⟨1, 0⟩],
    hashTable := [(10, 0, 0), (10, 1, 1)],
    clockHand := 1 }

/-- The state `allocBuf` leaves behind on `exC1`. -/
def exC1' : BufState :=
  { numBufs := 2,
    bufDescTable := [⟨some 10, 0, 0, 1, false, true, false⟩,
                     ⟨some 10, 1, 1, 0, false, true, false⟩],
    bufPool := [⟨0, 0⟩, ⟨1, 0⟩],
    hashTable := [(10, 0, 0), (10, 1, 1)],
    clockHand := 0 }

/-- Claim C1 (evaluation at the failing input): in `exC1` frame 1 is valid
and unpinned — only its reference bit is set — yet `allocBuf` raises
`BufferExceeded`.  The local `pinned` counter counts pinned *observations*
(frame 0 is observed twice in the sweep: once before frame 1's reference bit
is cleared and once after), not distinct pinned frames, so the code throws
while an evictable frame exists, contradicting its own comment that the
exception means all pages are pinned. -/
theorem claim_C1_code_bug_eval :
    (descAt exC1 1).valid = true ∧ (descAt exC1 1).pinCnt = 0 ∧
    allocBuf exC1 = some (Except.error BufError.BufferExceeded, exC1', []) := by
  decide

/-- File 7 owns both frames: frame 0 unpinned, frame 1 pinned. -/
def exC3 : BufState :=
  { numBufs := 2,
    bufDescTable := [⟨some 7, 0, 0, 0, false, true, false⟩,
                     ⟨some 7, 1, 1, 1, false, true, false⟩],
    bufPool := [⟨0, 0⟩, ⟨1, 0⟩],
    hashTable := [(7, 0, 0), (7, 1, 1)],
    clockHand := 1 }

/-- The state `flushFile exC3 7` leaves behind: frame 0 has already been
cleared and its index entry removed when the pinned frame 1 aborts the
operation. -/
def exC3' : BufState :=
  { numBufs := 2,
    bufDescTable := [⟨none, 0, 0, 0, false, false, false⟩,
                     ⟨some 7, 1, 1, 1, false, true, false⟩],
    bufPool := [⟨0, 0⟩, ⟨1, 0⟩],
    hashTable := [(7, 1, 1)],
    clockHand := 1 }

/-- Claim C3 (counterexample): `flushFile` on a file with a pinned page does
raise `PagePinned`, but it does not leave all of that file's frames
unchanged — the file's unpinned frame 0 is flushed, removed from the index
and cleared before the scan reaches the pinned frame 1, so the claim as
stated (no partial clearing) is false. -/
theorem claim_C3_counterexample :
    (descAt exC3 1).file = some 7 ∧ 0 < (descAt exC3 1).pinCnt ∧
    flushFile exC3 7 = (Except.error (BufError.PagePinned 7 1 1), exC3', []) ∧
    exC3'.bufDescTable ≠ exC3.bufDescTable ∧
    (descAt exC3 0).valid = true ∧ (descAt exC3' 0).valid = false ∧
    htLookup exC3'.hashTable 7 0 = none := by
  decide

/-- `flushFile`'s scan, reaching the first pinned frame `j` owned by the
file: it raises `PagePinned` there, and frames at indices `≥ j` are
untouched (frames below `j` may already have been flushed and cleared). -/
theorem flushLoop_pinned :
    ∀ (rem : Nat) (file : FileId) (fi : Nat) (s : BufState) (tr : List FileOp)
      (j : Nat),
      BufInv s →
      s.numBufs = fi + rem →
      fi ≤ j →
      j < s.numBufs →
      (descAt s j).file = some file →
      0 < (descAt s j).pinCnt →
      (∀ i, fi ≤ i → i < j →
        ¬((descAt s i).file = some file ∧ 0 < (descAt s i).pinCnt)) →
      ∃ s' tr',
        flushLoop file rem fi s tr =
          (Except.error (BufError.PagePinned file (descAt s j).pageNo j),
            s', tr') ∧
        (∀ i, j ≤ i → descAt s' i = descAt s i) := by
  intro rem
  induction rem with
  | zero =>
      intro file fi s tr j hInv hnum hfij hj hown hpin hnone
      exfalso
      omega
  | succ rem ih =>
      intro file fi s tr j hInv hnum hfij hj hown hpin hnone
      rw [flushLoop_succ]
      dsimp only
      set d := descAt s fi with hd
      by_cases hf : d.file = some file
      · rw [if_pos hf]
        have hfi : fi < s.numBufs := by omega
        have hfilen : fi < s.bufDescTable.length := by
          rw [hInv.2.1]; exact hfi
        have hvalid : d.valid = true := by
          rcases hvb : d.valid with _ | _
          · exfalso
            have hfo := (hInv.2.2.2.2.2.1 fi (List.mem_range.mpr hfi)).2
            have hq := hfo (by rw [← hd]; exact hvb)
            rw [hd, hq.1] at hf
            exact Option.noConfusion hf
          · rfl
        rw [if_neg (by simp [hvalid])]
        by_cases hp : 0 < d.pinCnt
        · have hij : fi = j := by
            by_contra hne
            have hlt : fi < j := by omega
            exact hnone fi (le_refl fi) hlt
              ⟨by rw [← hd]; exact hf, by rw [← hd]; exact hp⟩
          subst hij
          rw [if_pos hp]
          refine ⟨s, tr, ?_, fun i _ => rfl⟩
          rw [hd]
        · rw [if_neg hp]
          have hfij2 : fi < j := by
            rcases Nat.lt_or_ge fi j with hq | hq
            · exact hq
            · exfalso
              have heq : fi = j := by omega
              rw [← heq, ← hd] at hpin
              exact hp hpin
          have hfo := hInv.2.2.2.2.2.1 fi (List.mem_range.mpr hfi)
          have hmem2 := (hfo.1 (by rw [← hd]; exact hvalid)).2
          have hmem : (file, d.pageNo, fi) ∈ s.hashTable := by
            rw [← hd] at hmem2
            rw [hf] at hmem2
            simpa using hmem2
          obtain ⟨ht2, hrem, hsub, hmemc⟩ :=
            htRemove_of_mem hInv.2.2.2.2.2.2 hmem
          by_cases hdt : d.dirty = true
          · rw [if_pos hdt, if_pos hdt]
            set d1 : BufDesc := { d with dirty := false } with hd1
            set s1 := setDesc s fi d1 with hs1
            have hInv1 : BufInv s1 := by
              rw [hs1]
              exact bufInv_update_core hInv hfi (by rw [← hd]) (by rw [← hd])
                (by rw [← hd]) (fun _ => by rw [← hd])
            have hs1ht : s1.hashTable = s.hashTable := by rw [hs1]; simp
            have hmem1 : (file, d.pageNo, fi) ∈ s1.hashTable := by
              rw [hs1ht]; exact hmem
            have hrem1 : htRemove s1.hashTable file d.pageNo = some ht2 := by
              rw [hs1ht]; exact hrem
            rw [hrem1]
            dsimp only
            have hInv2 := bufInv_remove_clear hInv1 hmem1 hrem1
            set s2 : BufState :=
              { s1 with
                hashTable := ht2,
                bufDescTable := s1.bufDescTable.set fi ((descAt s1 fi).Clear) }
              with hs2
            have hpres : ∀ i, fi < i → descAt s2 i = descAt s i := by
              intro i hi
              rw [hs2]
              simp only [descAt_mk]
              rw [getD_set_ne _ _ (by omega)]
              show descAt s1 i = descAt s i
              rw [hs1]
              exact descAt_setDesc_ne _ _ (by omega)
            obtain ⟨s', tr', hres, hpres'⟩ := ih file (fi + 1) s2 _ j hInv2
              (by show s.numBufs = fi + 1 + rem; omega)
              (by omega) (by show j < s.numBufs; exact hj)
              (by rw [hpres j (by omega)]; exact hown)
              (by rw [hpres j (by omega)]; exact hpin)
              (fun i hi1 hi2 => by
                rw [hpres i (by omega)]
                exact hnone i (by omega) hi2)
            have hpq : (descAt s2 j).pageNo = (descAt s j).pageNo := by
              rw [hpres j (by omega)]
            rw [hpq] at hres
            refine ⟨s', tr', hres, ?_⟩
            intro i hi
            rw [hpres' i hi, hpres i (by omega)]
          · rw [if_neg hdt, if_neg hdt]
            rw [hrem]
            dsimp only
            have hInv2 := bufInv_remove_clear hInv hmem hrem
            set s2 : BufState :=
              { s with
                hashTable := ht2,
                bufDescTable := s.bufDescTable.set fi ((descAt s fi).Clear) }
              with hs2
            have hpres : ∀ i, fi < i → descAt s2 i = descAt s i := by
              intro i hi
              rw [hs2]
              simp only [descAt_mk]
              rw [getD_set_ne _ _ (by omega)]
              exact rfl
            obtain ⟨s', tr', hres, hpres'⟩ := ih file (fi + 1) s2 _ j hInv2
              (by show s.numBufs = fi + 1 + rem; omega)
              (by omega) (by show j < s.numBufs; exact hj)
              (by rw [hpres j (by omega)]; exact hown)
              (by rw [hpres j (by omega)]; exact hpin)
              (fun i hi1 hi2 => by
                rw [hpres i (by omega)]
                exact hnone i (by omega) hi2)
            have hpq : (descAt s2 j).pageNo = (descAt s j).pageNo := by
              rw [hpres j (by omega)]
            rw [hpq] at hres
            refine ⟨s', tr', hres, ?_⟩
            intro i hi
            rw [hpres' i hi, hpres i (by omega)]
      · rw [if_neg hf]
        have hneq : fi ≠ j := by
          intro hcon
          rw [hd, hcon] at hf
          exact hf hown
        exact ih file (fi + 1) s tr j hInv (by omega) (by omega) hj hown hpin
          (fun i hi1 hi2 => hnone i (by omega) hi2)

/-- Claim C3 (amended): if some frame owned by the target file is pinned,
`flushFile` raises `PagePinned` at the first (lowest-index) such frame, and
every frame at an index at or above that frame keeps its state; owned
unpinned frames at smaller indices, however, have already been flushed,
removed from the index and cleared when the exception is raised, so partial
clearing does occur (see the counterexample). -/
theorem claim_C3_amended {s : BufState} {file : FileId} {j : Nat}
    (hInv : BufInv s)
    (hj : j < s.numBufs)
    (hown : (descAt s j).file = some file)
    (hpin : 0 < (descAt s j).pinCnt)
    (hfirst : ∀ i, i < j →
      ¬((descAt s i).file = some file ∧ 0 < (descAt s i).pinCnt)) :
    ∃ s' tr', flushFile s file =
        (Except.error (BufError.PagePinned file (descAt s j).pageNo j),
          s', tr') ∧
      (∀ i, j ≤ i → descAt s' i = descAt s i) :=
  flushLoop_pinned s.numBufs file 0 s [] j hInv (by omega) (Nat.zero_le j)
    hj hown hpin (fun i _ h2 => hfirst i h2)

theorem claim_C3_amended_witness :
    ∃ s' tr', flushFile exC3 7 =
        (Except.error (BufError.PagePinned 7 (descAt exC3 1).pageNo 1),
          s', tr') ∧
      (∀ i, 1 ≤ i → descAt s' i = descAt exC3 i) :=
  @claim_C3_amended exC3 7 1 (by decide) (by decide) (by decide) (by decide)
    (by decide)
